import Mathlib

/-!
# DiscordBot: command authorisation and dispatch engine

A shallow embedding of `src/DiscordBot.js`.  The bot object is a record of its
instance fields, every method is a function on that record, and a method that
mutates the bot or talks to the outside world returns the bot it leaves behind
together with the effects it performed and the exception, if any, that it
raised.
-/

set_option autoImplicit false

namespace DiscordBot

/-! ## JavaScript values -/

/-- A UTF-16 code unit, the element of a JavaScript string. -/
abbrev CodeUnit := Fin 65536

/-- A JavaScript string, as the sequence of its UTF-16 code units: `length`,
`substring`, `startsWith`, `split` and `trim` all count and cut in code units,
and a code point outside the Basic Multilingual Plane takes two of them. -/
abbrev Str := List CodeUnit

/-- The code units of one code point: itself, or its surrogate pair. -/
def utf16 (c : Char) : List CodeUnit :=
  if c.toNat < 0x10000 then [Fin.ofNat c.toNat]
  else
    [Fin.ofNat (0xD800 + (c.toNat - 0x10000) / 0x400),
      Fin.ofNat (0xDC00 + (c.toNat - 0x10000) % 0x400)]

/-- The JavaScript string written as the literal `s`. -/
def js (s : String) : Str :=
  (s.toList.map utf16).flatten

/-- A JavaScript object used as a map from string keys (guild ids, command
names) to values, as the list of its own properties in insertion order.  The
per-guild maps are keyed by the numeric ids that Discord gives its guilds, for
which nothing is inherited from `Object.prototype`; the command registry,
whose names come from the program and from the text of messages, accounts for
the inherited properties in `lookupCommand` and `setCommand`. -/
abbrev JsObject (V : Type) := List (Str × V)

namespace JsObject

variable {V : Type}

/-- Property read `o[k]`: `none` stands for `undefined`. -/
def get : JsObject V → Str → Option V
  | [], _ => none
  | (k', v) :: rest, k => if k' = k then some v else get rest k

/-- Property write `o[k] = v`: an existing property keeps its place, a new
one is added at the end. -/
def set : JsObject V → Str → V → JsObject V
  | [], k, v => [(k, v)]
  | (k', v') :: rest, k, v => if k' = k then (k', v) :: rest else (k', v') :: set rest k v

/-- Property removal `delete o[k]`. -/
def delete (o : JsObject V) (k : Str) : JsObject V :=
  o.filter (fun p => decide (p.1 ≠ k))

/-- The list of property names, `Object.keys(o)`. -/
def keys (o : JsObject V) : List Str :=
  o.map Prod.fst

end JsObject

/-- The array method `Array.prototype.indexOf`, counting from position `i`:
the position of the first element equal to `x`, or `-1`. -/
def indexOfFrom : List Str → Str → Nat → Int
  | [], _, _ => -1
  | y :: ys, x, i => if y = x then (i : Int) else indexOfFrom ys x (i + 1)

/-- The array method `xs.indexOf(x)`. -/
def indexOf (xs : List Str) (x : Str) : Int :=
  indexOfFrom xs x 0

/-- The array method `xs.splice(index, 1)` for an index `index >= 0`, as the
array it leaves behind. -/
def splice1 (xs : List Str) (index : Int) : List Str :=
  xs.eraseIdx index.toNat

/-- The array method `parts.join(sep)`. -/
def join (sep : Str) : List Str → Str
  | [] => []
  | [x] => x
  | x :: y :: rest => x ++ sep ++ join sep (y :: rest)

/-! ## Strings -/

/-- The code units that `String.prototype.trim` strips: the ECMAScript
`WhiteSpace` and `LineTerminator` productions, all of one code unit. -/
def isWhiteSpace (u : CodeUnit) : Bool :=
  let n := u.val
  n = 0x09 || n = 0x0A || n = 0x0B || n = 0x0C || n = 0x0D || n = 0x20 || n = 0xA0 ||
  n = 0x1680 || (0x2000 ≤ n && n ≤ 0x200A) || n = 0x2028 || n = 0x2029 || n = 0x202F ||
  n = 0x205F || n = 0x3000 || n = 0xFEFF

/-- The string method `s.trim()`. -/
def trim (s : Str) : Str :=
  ((s.dropWhile isWhiteSpace).reverse.dropWhile isWhiteSpace).reverse

/-- The lower-case form of an ASCII code unit: `A` to `Z` become `a` to `z`. -/
def lowerAscii (u : CodeUnit) : CodeUnit :=
  if 0x41 ≤ u.val ∧ u.val ≤ 0x5A then Fin.ofNat (u.val + 0x20) else u

/-- The string method `s.toLowerCase()` on strings of ASCII code units, which
it lowercases one unit at a time.  On other strings the method follows the
Unicode case tables of the runtime: the definitions below take it as a
parameter `toLowerCase`, and the examples, whose strings are all ASCII, pass
this function for it. -/
def toLowerCaseAscii (s : Str) : Str :=
  s.map lowerAscii

/-- The string method `s.startsWith(p)`. -/
def startsWith (s p : Str) : Bool :=
  p.isPrefixOf s

/-- The string method `s.substring(n)`: the string without its first `n` code
units. -/
def substring (s : Str) (n : Nat) : Str :=
  s.drop n

/-- The scan of `s.split(sep)` for a non-empty separator.  `skip` counts the
code units of a separator just matched that are still to be passed over. -/
def splitFrom (sep : Str) : Nat → Str → List Str
  | _, [] => [[]]
  | skip + 1, _ :: cs => splitFrom sep skip cs
  | 0, c :: cs =>
    if sep.isPrefixOf (c :: cs) then
      [] :: splitFrom sep (sep.length - 1) cs
    else
      match splitFrom sep 0 cs with
      | [] => [[c]]
      | p :: ps => (c :: p) :: ps

/-- The string method `s.split(sep)` for a non-empty separator: the pieces
between the successive, non-overlapping occurrences of `sep`, found from left
to right. -/
def split (s sep : Str) : List Str :=
  splitFrom sep 0 s

/-! ## The bot and the messages it receives -/

/-- The values that a lookup in `this.commands` can give: the handlers that
the bot registers for itself in `attachCommands`, the handlers attached from
outside, told apart by a number, and the values of the properties that every
plain object inherits from `Object.prototype`, told apart by their name. -/
inductive Handler where
  | setCommandPrefixForGuild
  | setDeleteMessages
  | authoriseUser
  | authoriseRole
  | showAuthorised
  | deauthoriseUser
  | deauthoriseRole
  | ping
  | external (n : Nat)
  | inherited (name : Str)
  deriving DecidableEq, Repr

/-- The object that `getSettingsToSave` builds, `saveSettings` writes as JSON
and `hoist` reads back.  A key that the file lacks reads as `none`. -/
structure Settings where
  commandPrefixOverrides : Option (JsObject Str)
  deleteMessages : Option (JsObject Bool)
  authorisedUsers : Option (JsObject (List Str))
  authorisedRoles : Option (JsObject (List Str))
  deriving DecidableEq, Repr

/-- The instance fields of a `DiscordBot`.  An entry `none` of `commands` is a
property whose value is `undefined`; `deleteMessages` is `none` until
something assigns `this.deleteMessages`; `user` is the id of `client.user`. -/
structure Bot where
  commands : JsObject (Option Handler)
  commandPrefix : Str
  commandPrefixOverrides : JsObject Str
  deleteMessageOverrides : JsObject Bool
  authorisedRoles : JsObject (List Str)
  authorisedUsers : JsObject (List Str)
  deleteMessages : Option (JsObject Bool)
  user : Str
  deriving DecidableEq, Repr

/-- A guild as the bot sees it through a message: its id, the id of its owner
and its roles as pairs of name and id. -/
structure Guild where
  id : Str
  owner : Str
  roles : List (Str × Str)
  deriving DecidableEq, Repr

/-- A guild member mentioned in a message: `member.id` and
`member.user.username`. -/
structure Member where
  id : Str
  username : Str
  deriving DecidableEq, Repr

/-- The type of the channel a message arrives in, `message.channel.type`. -/
inductive ChannelType where
  | text
  | dm
  | group
  deriving DecidableEq, Repr

/-- A message received from Discord.  `guild` is `none` (JavaScript `null`)
for a message outside a guild; `memberRoles` are the ids of
`message.member.roles`; `mentions` is `message.mentions.members`. -/
structure Message where
  content : Str
  channelType : ChannelType
  guild : Option Guild
  author : Str
  memberRoles : List Str
  mentions : List Member
  deriving DecidableEq, Repr

/-- The exceptions the bot code can raise: the `Error` thrown by
`elevateCommand` and the `TypeError` of a property read on `undefined` or
`null`. -/
inductive JsError where
  | notAuthorised
  | typeError
  deriving DecidableEq, Repr

/-- The method `elevateCommand`: returns normally when the author of the
message may run privileged commands, raises otherwise. -/
def elevateCommand (bot : Bot) (message : Message) : Except JsError Unit :=
  match message.guild with
  | none => .error .typeError
  | some guild =>
    let authorAuthedRoles : List Str :=
      match bot.authorisedRoles.get guild.id with
      | some roles => message.memberRoles.filter (fun role => indexOf roles role != -1)
      | none => []
    if guild.owner = message.author then .ok ()
    else
      match bot.authorisedUsers.get guild.id with
      | none => .error .typeError
      | some users =>
        if indexOf users message.author > -1 || decide (authorAuthedRoles.length > 0) then .ok ()
        else .error .notAuthorised

/-! ## Construction, settings and per-guild lookups -/

/-- The assignment `this.commands[name] = value`.  Under the name `__proto__`
it goes to the accessor that the object inherits from `Object.prototype`:
`undefined` is ignored, and a function becomes the prototype of the object,
which is what the read of `__proto__` gives from then on; the entry written
here stands for it, and what else the object would inherit from that function
is left out. -/
def setCommand (commands : JsObject (Option Handler)) (name : Str)
    (value : Option Handler) : JsObject (Option Handler) :=
  if name = js "__proto__" then
    match value with
    | none => commands
    | some callback => commands.set name (some callback)
  else commands.set name value

/-- The method `attachCommand`: registers a handler under the lowercased
name. -/
def attachCommand (toLowerCase : Str → Str) (bot : Bot) (command : Str)
    (callback : Handler) : Bot :=
  { bot with commands := setCommand bot.commands (toLowerCase command) (some callback) }

/-- The names of the properties of `Object.prototype`, which the plain object
`this.commands` inherits. -/
def objectPrototypeNames : List Str :=
  [js "constructor", js "__defineGetter__", js "__defineSetter__", js "hasOwnProperty",
    js "__lookupGetter__", js "__lookupSetter__", js "isPrototypeOf",
    js "propertyIsEnumerable", js "toString", js "valueOf", js "__proto__",
    js "toLocaleString"]

/-- The lookup `this.commands[command]`: the value of the object's own
property when it has one, `none` standing for `undefined`; otherwise the value
inherited from `Object.prototype`, if the name is that of one of its
properties. -/
def lookupCommand (bot : Bot) (command : Str) : Option Handler :=
  match bot.commands.get command with
  | some value => value
  | none => if command ∈ objectPrototypeNames then some (.inherited command) else none

/-- The method `addCommandAlias`: copies what is found under the lowercased
command name to the lowercased alias. -/
def addCommandAlias (toLowerCase : Str → Str) (bot : Bot) (command commandAlias : Str) :
    Bot :=
  let found := lookupCommand bot (toLowerCase command)
  { bot with commands := setCommand bot.commands (toLowerCase commandAlias) found }

/-- The method `addCommandAliases`: every alias of every command, in order. -/
def addCommandAliases (toLowerCase : Str → Str) (bot : Bot)
    (data : List (Str × List Str)) : Bot :=
  data.foldl
    (fun b entry => entry.2.foldl (fun b' a => addCommandAlias toLowerCase b' entry.1 a) b) bot

/-- The method `attachCommands`: the built-in commands and their aliases. -/
def attachCommands (toLowerCase : Str → Str) (bot : Bot) : Bot :=
  let b := attachCommand toLowerCase bot (js "setCommandPrefix") .setCommandPrefixForGuild
  let b := attachCommand toLowerCase b (js "setCommandDelete") .setDeleteMessages
  let b := attachCommand toLowerCase b (js "authoriseUsers") .authoriseUser
  let b := attachCommand toLowerCase b (js "authoriseRole") .authoriseRole
  let b := attachCommand toLowerCase b (js "showAuthorised") .showAuthorised
  let b := attachCommand toLowerCase b (js "deauthoriseUsers") .deauthoriseUser
  let b := attachCommand toLowerCase b (js "deauthoriseRole") .deauthoriseRole
  let b := addCommandAliases toLowerCase b
    [ (js "authoriseUsers", [js "authoriseUser", js "authUser", js "authUsers"]),
      (js "authoriseRole", [js "authRole"]),
      (js "deauthoriseUsers",
        [js "deauthoriseUser", js "deauthUser", js "deauthUsers"]),
      (js "deauthoriseRole", [js "deauthRole"]) ]
  attachCommand toLowerCase b (js "ping") .ping

/-- The constructor: `commandPrefix` is `conf.commandPrefix`; the four
per-guild maps start empty and the built-in commands are attached.  `user` is
unset until the bot is hoisted. -/
def constructor (toLowerCase : Str → Str) (commandPrefix : Str) : Bot :=
  attachCommands toLowerCase
    { commands := [],
      commandPrefix := commandPrefix,
      commandPrefixOverrides := [],
      deleteMessageOverrides := [],
      authorisedRoles := [],
      authorisedUsers := [],
      deleteMessages := none,
      user := [] }

/-- The method `getSettingsToSave`: the four maps under the keys
`commandPrefixOverrides`, `deleteMessages`, `authorisedUsers` and
`authorisedRoles`. -/
def getSettingsToSave (bot : Bot) : Settings :=
  { commandPrefixOverrides := some bot.commandPrefixOverrides,
    deleteMessages := some bot.deleteMessageOverrides,
    authorisedUsers := some bot.authorisedUsers,
    authorisedRoles := some bot.authorisedRoles }

/-- The method `hoist`, given the parsed content of the settings file and the
id of `client.user`: for every key `setting` of `getSettingsToSave()` it
assigns `this[setting] = settings[setting] ? settings[setting] : {}`.  The
keys are `commandPrefixOverrides`, `deleteMessages`, `authorisedUsers` and
`authorisedRoles`, so the second assignment writes the property
`deleteMessages` and `deleteMessageOverrides` keeps its value. -/
def hoist (bot : Bot) (clientUser : Str) (settings : Settings) : Bot :=
  { bot with
    user := clientUser,
    commandPrefixOverrides := settings.commandPrefixOverrides.getD [],
    deleteMessages := some (settings.deleteMessages.getD []),
    authorisedUsers := settings.authorisedUsers.getD [],
    authorisedRoles := settings.authorisedRoles.getD [] }

/-- Saving the settings of `bot` and loading them into a freshly constructed
bot: the file holds the JSON text of `getSettingsToSave bot`, which
`JSON.parse` reads back as the same object. -/
def saveThenLoad (toLowerCase : Str → Str) (bot : Bot) : Bot :=
  hoist (constructor toLowerCase bot.commandPrefix) bot.user (getSettingsToSave bot)

/-- The method `getDeleteMessageForGuild`: `true` when the guild is not among
the keys of `deleteMessageOverrides`, its entry otherwise. -/
def getDeleteMessageForGuild (bot : Bot) (guildId : Str) : Bool :=
  if indexOf bot.deleteMessageOverrides.keys guildId < 0 then true
  else (bot.deleteMessageOverrides.get guildId).getD false

/-- The method `getCommandPrefixForGuild`: the guild's override when it is
truthy (a non-empty string), the global prefix otherwise. -/
def getCommandPrefixForGuild (bot : Bot) (guildId : Str) : Str :=
  match bot.commandPrefixOverrides.get guildId with
  | some override => if override ≠ [] then override else bot.commandPrefix
  | none => bot.commandPrefix

/-! ## Command handlers -/

/-- What a run of a handler leaves behind: the bot, the texts passed to
`message.reply`, the snapshots handed to `saveSettings` for writing, and the
exception that ended the run, if any (for an `async` handler, the reason its
promise is rejected with). -/
structure Outcome where
  bot : Bot
  replies : List Str
  saved : List Settings
  error : Option JsError
  deriving DecidableEq, Repr

/-- A run that returns normally with no reply and nothing saved. -/
def Outcome.done (bot : Bot) : Outcome :=
  { bot := bot, replies := [], saved := [], error := none }

/-- A run ended by an exception, with no reply and nothing saved. -/
def Outcome.raise (bot : Bot) (e : JsError) : Outcome :=
  { bot := bot, replies := [], saved := [], error := some e }

/-- The method `saveSettings`: the snapshot of `getSettingsToSave` is turned
into JSON at once and handed to `fs.writeFile`. -/
def saveSettings (bot : Bot) : Outcome :=
  { bot := bot, replies := [], saved := [getSettingsToSave bot], error := none }

/-- The handler `setDeleteMessages`. -/
def setDeleteMessages (toLowerCase : Str → Str) (bot : Bot) (commandParts : List Str)
    (message : Message) : Outcome :=
  match elevateCommand bot message with
  | .error e => Outcome.raise bot e
  | .ok () =>
    match commandParts with
    | [] => Outcome.done bot
    | first :: _ =>
      match message.guild with
      | none => Outcome.raise bot .typeError
      | some guild =>
        let guildSpecificDeleteString := toLowerCase (trim first)
        let guildSpecificDeleteIndex :=
          indexOf [js "false", js "f", js "n", js "no"] guildSpecificDeleteString
        Outcome.done { bot with
          deleteMessageOverrides :=
            bot.deleteMessageOverrides.set guild.id (decide (guildSpecificDeleteIndex < 0)) }

/-- The handler `setCommandPrefixForGuild`. -/
def setCommandPrefixForGuild (bot : Bot) (commandParts : List Str) (message : Message) :
    Outcome :=
  match elevateCommand bot message with
  | .error e => Outcome.raise bot e
  | .ok () =>
    match commandParts with
    | [] => Outcome.done bot
    | first :: _ =>
      let guildSpecificPrefix := trim first
      if guildSpecificPrefix.length > 1 then Outcome.done bot
      else
        match message.guild with
        | none => Outcome.raise bot .typeError
        | some guild =>
          if guildSpecificPrefix = bot.commandPrefix then
            saveSettings { bot with
              commandPrefixOverrides := bot.commandPrefixOverrides.delete guild.id }
          else
            saveSettings { bot with
              commandPrefixOverrides :=
                bot.commandPrefixOverrides.set guild.id guildSpecificPrefix }

/-- The handler `showAuthorised`: walks the guild's authorised users and only
logs them. -/
def showAuthorised (bot : Bot) (_commandParts : List Str) (message : Message) : Outcome :=
  match message.guild with
  | none => Outcome.raise bot .typeError
  | some guild =>
    match bot.authorisedUsers.get guild.id with
    | none => Outcome.raise bot .typeError
    | some _ => Outcome.done bot

/-- The lookup `message.guild.roles.find('name', roleName)`, as the id of the
first role of that name. -/
def findRole (guild : Guild) (roleName : Str) : Option Str :=
  (guild.roles.find? (fun role => decide (role.1 = roleName))).map Prod.snd

/-- The reply of `authoriseRole` and `deauthoriseRole` for an unknown role. -/
def roleNotFoundReply (roleName : Str) : Str :=
  (js "I'm sorry, I could not find a role named ") ++ roleName ++
    (js ". Discord role names are case sensitive, please make sure the case is correct.")

/-- The handler `authoriseRole`. -/
def authoriseRole (bot : Bot) (commandParts : List Str) (message : Message) : Outcome :=
  match elevateCommand bot message with
  | .error e => Outcome.raise bot e
  | .ok () =>
    match commandParts with
    | [] => Outcome.done bot
    | _ :: _ =>
      match message.guild with
      | none => Outcome.raise bot .typeError
      | some guild =>
        let roleName := join (js " ") commandParts
        match findRole guild roleName with
        | some roleId =>
          let roles := (bot.authorisedRoles.get guild.id).getD []
          if (bot.authorisedRoles.get guild.id).isNone || indexOf roles roleId = -1 then
            Outcome.done { bot with
              authorisedRoles := bot.authorisedRoles.set guild.id (roles ++ [roleId]) }
          else
            { bot := bot,
              replies := [roleName ++ (js " already has privileges on this server.")],
              saved := [], error := none }
        | none =>
          { bot := bot, replies := [roleNotFoundReply roleName], saved := [], error := none }

/-- The handler `deauthoriseRole`. -/
def deauthoriseRole (bot : Bot) (commandParts : List Str) (message : Message) : Outcome :=
  match elevateCommand bot message with
  | .error e => Outcome.raise bot e
  | .ok () =>
    match commandParts with
    | [] => Outcome.done bot
    | _ :: _ =>
      match message.guild with
      | none => Outcome.raise bot .typeError
      | some guild =>
        let roleName := join (js " ") commandParts
        match findRole guild roleName with
        | some roleId =>
          match bot.authorisedRoles.get guild.id with
          | none =>
            { bot := bot,
              replies := [(js "Role ") ++ roleName ++ (js " is not authed on this server")],
              saved := [], error := none }
          | some roles =>
            if indexOf roles roleId = -1 then
              { bot := bot,
                replies := [(js "Role ") ++ roleName ++ (js " is not authed on this server")],
                saved := [], error := none }
            else
              Outcome.done { bot with
                authorisedRoles :=
                  bot.authorisedRoles.set guild.id (splice1 roles (indexOf roles roleId)) }
        | none =>
          { bot := bot, replies := [roleNotFoundReply roleName], saved := [], error := none }

/-- The body of the `forEach` of `authoriseUser` for one mentioned member, on
the pair of `authorisedUsers` and `alreadyAuthedUsers`. -/
def authoriseUserStep (guildId : Str) (acc : JsObject (List Str) × List Str)
    (member : Member) : JsObject (List Str) × List Str :=
  let users := (acc.1.get guildId).getD []
  if (acc.1.get guildId).isNone || indexOf users member.id = -1 then
    (acc.1.set guildId (users ++ [member.id]), acc.2)
  else
    (acc.1, acc.2 ++ [member.username])

/-- The handler `authoriseUser`. -/
def authoriseUser (bot : Bot) (commandParts : List Str) (message : Message) : Outcome :=
  match elevateCommand bot message with
  | .error e => Outcome.raise bot e
  | .ok () =>
    match commandParts with
    | [] => Outcome.done bot
    | _ :: _ =>
      match message.guild with
      | none => Outcome.raise bot .typeError
      | some guild =>
        let result := message.mentions.foldl (authoriseUserStep guild.id) (bot.authorisedUsers, [])
        { bot := { bot with authorisedUsers := result.1 },
          replies :=
            if result.2.length > 0 then
              [(js "The following users are already authorised ") ++ join (js ", ") result.2]
            else [],
          saved := [], error := none }

/-- The `forEach` of `deauthoriseUser` over the mentioned members, on
`authorisedUsers` and `notAuthedUsers`.  The index is read from
`this.authorisedUsers[guildId]` before anything is tested, which raises a
`TypeError` when the guild has no entry; the name pushed is `member.username`,
which a guild member does not have and `join` renders as the empty string. -/
def deauthoriseUserLoop (guildId : Str) :
    JsObject (List Str) → List Str → List Member → JsObject (List Str) × List Str × Option JsError
  | authorisedUsers, notAuthedUsers, [] => (authorisedUsers, notAuthedUsers, none)
  | authorisedUsers, notAuthedUsers, member :: rest =>
    match authorisedUsers.get guildId with
    | none => (authorisedUsers, notAuthedUsers, some .typeError)
    | some users =>
      let index := indexOf users member.id
      if index = -1 then
        deauthoriseUserLoop guildId authorisedUsers (notAuthedUsers ++ [[]]) rest
      else
        deauthoriseUserLoop guildId (authorisedUsers.set guildId (splice1 users index))
          notAuthedUsers rest

/-- The handler `deauthoriseUser`. -/
def deauthoriseUser (bot : Bot) (commandParts : List Str) (message : Message) : Outcome :=
  match elevateCommand bot message with
  | .error e => Outcome.raise bot e
  | .ok () =>
    match commandParts with
    | [] => Outcome.done bot
    | _ :: _ =>
      match message.guild with
      | none => Outcome.raise bot .typeError
      | some guild =>
        match deauthoriseUserLoop guild.id bot.authorisedUsers [] message.mentions with
        | (authorisedUsers, _, some e) =>
          Outcome.raise { bot with authorisedUsers := authorisedUsers } e
        | (authorisedUsers, notAuthedUsers, none) =>
          { bot := { bot with authorisedUsers := authorisedUsers },
            replies :=
              if notAuthedUsers.length > 0 then
                [(js "The following members didn't have permissions already: ") ++
                  join (js ", ") notAuthedUsers]
              else [],
            saved := [], error := none }

/-- The handler `ping`. -/
def ping (bot : Bot) (_commandParts : List Str) (_message : Message) : Outcome :=
  { bot := bot, replies := [js "Pong"], saved := [], error := none }

/-- The listener that `listen` installs for `guildMemberRemove`, for the
member `userId` leaving the guild `guildId`. -/
def guildMemberRemove (bot : Bot) (guildId userId : Str) : Outcome :=
  match bot.authorisedUsers.get guildId with
  | none => Outcome.raise bot .typeError
  | some users =>
    let index := indexOf users userId
    if index ≥ 0 then
      Outcome.done { bot with authorisedUsers := bot.authorisedUsers.set guildId (splice1 users index) }
    else Outcome.done bot

/-! ## Message parsing -/

/-- What `processCommand` does with a message: nothing, a text sent with
`message.channel.send`, or a call of `executeCommand`. -/
inductive ProcessResult where
  | ignored
  | send (text : Str)
  | executeCommand (command : Str) (commandParts : List Str) (comment : Str)
  deriving DecidableEq, Repr

/-- The notice of `processCommand` for a channel of type `dm`. -/
def dmNotice : Str :=
  (js "You cannot use this bot via DM yet for technical reasons")

/-- The match of `content` against the pattern built from the bot's id, a
string of digits: the text matched, `<@!id>` or `<@id>` at the very start, or
`none` for `null`. -/
def mentionMatch (userId content : Str) : Option Str :=
  let withMark := (js "<@!") ++ userId ++ (js ">")
  let plain := (js "<@") ++ userId ++ (js ">")
  if withMark.isPrefixOf content then some withMark
  else if plain.isPrefixOf content then some plain
  else none

/-- The method `processCommand`, up to its call of `executeCommand`.  A
`split` never returns an empty array, so `args[0]` and `commandParts.shift()`
are always there. -/
def processCommand (toLowerCase : Str → Str) (bot : Bot) (message : Message) :
    ProcessResult :=
  match message.guild with
  | none => .ignored
  | some guild =>
    if message.channelType = .dm then .send dmNotice
    else
      let pfx := getCommandPrefixForGuild bot guild.id
      let isMention := mentionMatch bot.user message.content
      if !(startsWith message.content pfx || isMention.isSome) then .ignored
      else
        let args :=
          match isMention with
          | some atMention => split (trim (message.content.drop atMention.length)) (js "--")
          | none => split (trim (substring message.content 1)) (js "--")
        let comment :=
          match args.tail.head? with
          | some second => if second ≠ [] then trim second else []
          | none => []
        let commandParts := split (args.headD []) (js " ")
        let command := toLowerCase (commandParts.headD [])
        .executeCommand command commandParts.tail comment

/-! ## Command execution -/

/-- What the call `this.commands[command](commandParts, message, comment)`
comes to, as far as `executeCommand` looks at it: an exception thrown by the
call, or the value it returned, which is falsy (such as `undefined` or
`false`), a promise that is fulfilled, rejected or never settled, or a truthy
value that is no promise and has no method `then` (such as `true`, a string or
an array). -/
inductive Response where
  | thrown (e : JsError)
  | falsy
  | fulfilled
  | rejected (e : JsError)
  | pending
  | notThenable
  deriving DecidableEq, Repr

/-- What a call of a value found in `this.commands` leaves behind: the bot,
the texts passed to `message.reply`, the snapshots handed to `saveSettings`,
and the response. -/
structure Call where
  bot : Bot
  replies : List Str
  saved : List Settings
  response : Response
  deriving DecidableEq, Repr

/-- The call of a built-in handler.  All but `ping` are `async` and `ping`
returns the promise of `message.reply`, so the value returned is a promise,
rejected with the exception that ended the run, if any.  The promises of
`message.reply` and of the write of `saveSettings` are taken to be fulfilled. -/
def Outcome.toCall (outcome : Outcome) : Call :=
  { bot := outcome.bot, replies := outcome.replies, saved := outcome.saved,
    response :=
      match outcome.error with
      | none => .fulfilled
      | some e => .rejected e }

/-- What the bot code takes from outside the repository: the string method
`toLowerCase` of the runtime; the handlers attached from outside, by number,
with what a call of each leaves behind; and what a call of a property
inherited from `Object.prototype` leaves behind in the two cases that
`objectPrototypeCall` leaves open. -/
structure Runtime where
  toLowerCase : Str → Str
  external : Nat → Bot → List Str → Message → Str → Call
  inherited : Str → Bot → List Str → Message → Str → Call

/-- The response of a property inherited from `Object.prototype` when it is
called as a command, with `this.commands` for `this` and `commandParts` for
first argument; none of these calls changes the bot.  `commandParts` is turned
into the property key `commandParts.join(',')`.
`constructor`, the function `Object`, returns the array `commandParts`, and
`toString` a string; `__proto__` is no function, and `__defineGetter__` and
`__defineSetter__` refuse `message` for a function; `hasOwnProperty` and
`propertyIsEnumerable` return whether the key is an own property;
`isPrototypeOf` returns `false`; `__lookupGetter__` and `__lookupSetter__`
return `undefined` but for the accessor `__proto__`.  `toLocaleString` calls
`this.commands.toString()` and `valueOf` returns `this.commands`, whose method
`then` is looked for next: `none` leaves these two to the runtime when the
object has an own property `toString` or `then`. -/
def objectPrototypeCall (name : Str) (bot : Bot) (commandParts : List Str) :
    Option Response :=
  let key := join (js ",") commandParts
  if name = js "constructor" then some .notThenable
  else if name = js "__proto__" then some (.thrown .typeError)
  else if name = js "__defineGetter__" ∨ name = js "__defineSetter__" then
    some (.thrown .typeError)
  else if name = js "hasOwnProperty" ∨ name = js "propertyIsEnumerable" then
    some (if key ∈ bot.commands.keys then .notThenable else .falsy)
  else if name = js "isPrototypeOf" then some .falsy
  else if name = js "__lookupGetter__" ∨ name = js "__lookupSetter__" then
    some (if key ∉ bot.commands.keys ∧ key = js "__proto__" then .notThenable else .falsy)
  else if name = js "toString" then some .notThenable
  else if name = js "toLocaleString" then
    if js "toString" ∈ bot.commands.keys then none else some .notThenable
  else if name = js "valueOf" then
    if js "then" ∈ bot.commands.keys then none else some .notThenable
  else none

/-- The call `this.commands[command](commandParts, message, comment)` for
each value that the lookup can give. -/
def runHandler (runtime : Runtime) :
    Handler → Bot → List Str → Message → Str → Call
  | .setCommandPrefixForGuild, bot, commandParts, message, _ =>
    (setCommandPrefixForGuild bot commandParts message).toCall
  | .setDeleteMessages, bot, commandParts, message, _ =>
    (setDeleteMessages runtime.toLowerCase bot commandParts message).toCall
  | .authoriseUser, bot, commandParts, message, _ =>
    (authoriseUser bot commandParts message).toCall
  | .authoriseRole, bot, commandParts, message, _ =>
    (authoriseRole bot commandParts message).toCall
  | .showAuthorised, bot, commandParts, message, _ =>
    (showAuthorised bot commandParts message).toCall
  | .deauthoriseUser, bot, commandParts, message, _ =>
    (deauthoriseUser bot commandParts message).toCall
  | .deauthoriseRole, bot, commandParts, message, _ =>
    (deauthoriseRole bot commandParts message).toCall
  | .ping, bot, commandParts, message, _ => (ping bot commandParts message).toCall
  | .external n, bot, commandParts, message, comment =>
    runtime.external n bot commandParts message comment
  | .inherited name, bot, commandParts, message, comment =>
    match objectPrototypeCall name bot commandParts with
    | some response => { bot := bot, replies := [], saved := [], response := response }
    | none => runtime.inherited name bot commandParts message comment

/-- What a run of `executeCommand` or `processCommand` leaves behind: the
bot, the value called, the texts passed to `message.channel.send` and to
`message.reply`, the snapshots handed to `saveSettings`, whether
`message.delete()` was called, and the exception that the run threw or logged
with `console.warn`. -/
structure Execution where
  bot : Bot
  invoked : Option Handler
  sent : List Str
  replies : List Str
  saved : List Settings
  deleted : Bool
  error : Option JsError
  deriving DecidableEq, Repr

/-- A run that does nothing at all. -/
def Execution.idle (bot : Bot) : Execution :=
  { bot := bot, invoked := none, sent := [], replies := [], saved := [], deleted := false,
    error := none }

/-- The end of a run of `executeCommand` after the call of `handler`, with
whether `message.delete()` was called and the exception thrown or logged. -/
def Call.finish (call : Call) (handler : Handler) (deleted : Bool)
    (error : Option JsError) : Execution :=
  { bot := call.bot, invoked := some handler, sent := [], replies := call.replies,
    saved := call.saved, deleted := deleted, error := error }

/-- The method `executeCommand`.  When `this.commands[command]` is truthy it
is called.  A falsy response leads to `maybeDeleteMessage` at once and a
fulfilled promise leads to it through `then`: the message is deleted if
`getDeleteMessageForGuild` says so for the bot as the call left it.  An
exception thrown by the call leaves `executeCommand`, a rejection is logged by
`catch`, and a truthy response without a method `then` makes `response.then`
raise a `TypeError`; the message is deleted in none of these cases.  When
`this.commands[command]` is falsy nothing is done. -/
def executeCommand (runtime : Runtime) (bot : Bot) (command : Str)
    (commandParts : List Str) (message : Message) (comment : Str) : Execution :=
  match lookupCommand bot command with
  | none => Execution.idle bot
  | some handler =>
    let call := runHandler runtime handler bot commandParts message comment
    match call.response with
    | .thrown e => call.finish handler false (some e)
    | .rejected e => call.finish handler false (some e)
    | .pending => call.finish handler false none
    | .notThenable => call.finish handler false (some .typeError)
    | .falsy | .fulfilled =>
      match message.guild with
      | none => call.finish handler false (some .typeError)
      | some guild =>
        call.finish handler (getDeleteMessageForGuild call.bot guild.id) none

/-- The method `processCommand` in full: the message is parsed and the call
of `executeCommand` it ends with is carried out. -/
def runProcessCommand (runtime : Runtime) (bot : Bot) (message : Message) : Execution :=
  match processCommand runtime.toLowerCase bot message with
  | .ignored => Execution.idle bot
  | .send text => { Execution.idle bot with sent := [text] }
  | .executeCommand command commandParts comment =>
    executeCommand runtime bot command commandParts message comment

/-- The runtime of the examples: strings are ASCII, a handler attached from
outside returns nothing, and the registries have no command named `toString`
or `then`, so that `inherited` is not consulted. -/
def exampleRuntime : Runtime :=
  { toLowerCase := toLowerCaseAscii,
    external := fun _ bot _ _ _ =>
      { bot := bot, replies := [], saved := [], response := .falsy },
    inherited := fun _ bot _ _ _ =>
      { bot := bot, replies := [], saved := [], response := .notThenable } }

/-- A runtime in which every handler attached from outside returns `true`
and leaves the bot as it is. -/
def truthyRuntime : Runtime :=
  { exampleRuntime with
    external := fun _ bot _ _ _ =>
      { bot := bot, replies := [], saved := [], response := .notThenable } }

/-! ## Sequences of operations -/

/-- The operations that touch the authorised users and roles: the four
handlers, with their arguments and message, and the departure of a member. -/
inductive AuthorisationOp where
  | authoriseUser (commandParts : List Str) (message : Message)
  | deauthoriseUser (commandParts : List Str) (message : Message)
  | authoriseRole (commandParts : List Str) (message : Message)
  | deauthoriseRole (commandParts : List Str) (message : Message)
  | guildMemberRemove (guildId userId : Str)
  deriving DecidableEq, Repr

/-- The bot that an operation leaves behind. -/
def AuthorisationOp.run : AuthorisationOp → Bot → Bot
  | .authoriseUser commandParts message, bot =>
    (DiscordBot.authoriseUser bot commandParts message).bot
  | .deauthoriseUser commandParts message, bot =>
    (DiscordBot.deauthoriseUser bot commandParts message).bot
  | .authoriseRole commandParts message, bot =>
    (DiscordBot.authoriseRole bot commandParts message).bot
  | .deauthoriseRole commandParts message, bot =>
    (DiscordBot.deauthoriseRole bot commandParts message).bot
  | .guildMemberRemove guildId userId, bot =>
    (DiscordBot.guildMemberRemove bot guildId userId).bot

/-- The bot after a sequence of operations, first to last. -/
def runAuthorisationOps (bot : Bot) (ops : List AuthorisationOp) : Bot :=
  ops.foldl (fun b op => op.run b) bot

/-- The bot after a sequence of messages, each handled by `processCommand`. -/
def runMessages (runtime : Runtime) (bot : Bot) (messages : List Message) : Bot :=
  messages.foldl (fun b message => (runProcessCommand runtime b message).bot) bot

/-! ## Message chunking -/

/-- The loop of `cleanMessage` over the parts still to come, with
`concatenatedMessagePart`, `concatenatedMessage` and `currentMessageLength`. -/
def cleanMessageLoop :
    List Str → List Str → List (List Str) → Nat → List (List Str)
  | [], concatenatedMessagePart, concatenatedMessage, _ =>
    concatenatedMessage ++ [concatenatedMessagePart]
  | part :: rest, concatenatedMessagePart, concatenatedMessage, currentMessageLength =>
    if currentMessageLength + part.length ≥ 1800 then
      cleanMessageLoop rest [part] (concatenatedMessage ++ [concatenatedMessagePart]) 0
    else
      cleanMessageLoop rest (concatenatedMessagePart ++ [part]) concatenatedMessage
        (currentMessageLength + part.length)

/-- The method `cleanMessage`: the parts of a message grouped into chunks. -/
def cleanMessage (message : List Str) : List (List Str) :=
  cleanMessageLoop message [] [] 0

/-! ## Example inputs -/

/-- A guild with id `100`, owned by user `1`, with one role `Mods` of id `7`. -/
def exampleGuild : Guild :=
  { id := (js "100"), owner := (js "1"), roles := [(js "Mods", (js "7"))] }

/-- A bot constructed with the global prefix `!` and hoisted, as user `42`,
over a settings file that holds the empty object. -/
def exampleBot : Bot :=
  hoist (constructor toLowerCaseAscii (js "!")) (js "42")
    { commandPrefixOverrides := none, deleteMessages := none,
      authorisedUsers := none, authorisedRoles := none }

/-- A message sent in a text channel of `exampleGuild` by its owner. -/
def ownerMessage (content : Str) (mentions : List Member) : Message :=
  { content := content, channelType := .text, guild := some exampleGuild,
    author := (js "1"), memberRoles := [], mentions := mentions }

/-- A message sent in a text channel of `exampleGuild` by user `2`, who is
not the owner and holds the roles `memberRoles`. -/
def memberMessage (content : Str) (memberRoles : List Str) : Message :=
  { content := content, channelType := .text, guild := some exampleGuild,
    author := (js "2"), memberRoles := memberRoles, mentions := [] }

/-- A bot in which the owner of `exampleGuild` has switched message deletion
off with `setCommandDelete false`. -/
def botWithDeleteOff : Bot :=
  (setDeleteMessages toLowerCaseAscii exampleBot [js "false"] (ownerMessage [] [])).bot

/-- A bot in which the owner of `exampleGuild` has authorised the role
`Mods` with `authoriseRole Mods`. -/
def botWithModsAuthorised : Bot :=
  (authoriseRole exampleBot [js "Mods"] (ownerMessage [] [])).bot

/-- A bot in which the owner of `exampleGuild` has set the guild's prefix to
`<` with `setCommandPrefix <`. -/
def botWithAnglePrefix : Bot :=
  (setCommandPrefixForGuild exampleBot [js "<"] (ownerMessage [] [])).bot

/-- A bot in which user `3` alone is authorised in `exampleGuild`. -/
def botWithUserThree : Bot :=
  { exampleBot with authorisedUsers := [(js "100", [js "3"])] }

/-- A bot in which the owner of `exampleGuild` has sent
`!setcommandprefix  ?`, with two spaces after the command name. -/
def botWithEmptyOverride : Bot :=
  (runProcessCommand exampleRuntime exampleBot
    (ownerMessage (js "!setcommandprefix  ?") [])).bot

/-- A bot constructed with the two-character global prefix `!!` and hoisted,
as user `42`, over a settings file that holds the empty object. -/
def botWithLongPrefix : Bot :=
  hoist (constructor toLowerCaseAscii (js "!!")) (js "42")
    { commandPrefixOverrides := none, deleteMessages := none,
      authorisedUsers := none, authorisedRoles := none }

/-- The bot `botWithLongPrefix` after the owner of `exampleGuild` has set the
guild's prefix to `?`. -/
def botWithLongPrefixOverridden : Bot :=
  (setCommandPrefixForGuild botWithLongPrefix [js "?"] (ownerMessage [] [])).bot

/-- A bot constructed with a single space as its global prefix and hoisted,
as user `42`, over a settings file that holds the empty object. -/
def botWithBlankPrefix : Bot :=
  hoist (constructor toLowerCaseAscii (js " ")) (js "42")
    { commandPrefixOverrides := none, deleteMessages := none,
      authorisedUsers := none, authorisedRoles := none }

/-- The bot `exampleBot` after `attachCommand('hello', handler)` for a handler
from outside, numbered `0`. -/
def botWithGreeting : Bot :=
  attachCommand toLowerCaseAscii exampleBot (js "hello") (.external 0)

/-- No list of the map holds the same id twice. -/
def NodupEntries (o : JsObject (List Str)) : Prop :=
  ∀ key ids, o.get key = some ids → ids.Nodup

/-- Every list of the map `o` is still there in `o'`, possibly longer. -/
def EntriesGrow (o o' : JsObject (List Str)) : Prop :=
  ∀ key ids, o.get key = some ids → ∃ ids', o'.get key = some ids' ∧ ∀ id ∈ ids, id ∈ ids'

/-- No guild's list of authorised users and no guild's list of authorised
roles holds the same id twice. -/
def NoDuplicateIds (bot : Bot) : Prop :=
  NodupEntries bot.authorisedUsers ∧ NodupEntries bot.authorisedRoles

/-! ## Lemmas on arrays and strings -/

theorem indexOfFrom_of_not_mem (xs : List Str) (x : Str) (i : Nat) (h : x ∉ xs) :
    indexOfFrom xs x i = -1 := by
  induction xs generalizing i with
  | nil => rfl
  | cons y ys ih =>
    have hy : y ≠ x := fun e => h (e ▸ List.mem_cons_self _ _)
    have hys : x ∉ ys := fun m => h (List.mem_cons_of_mem _ m)
    simp [indexOfFrom, hy, ih (i + 1) hys]

theorem indexOf_of_not_mem (xs : List Str) (x : Str) (h : x ∉ xs) : indexOf xs x = -1 :=
  indexOfFrom_of_not_mem xs x 0 h

theorem indexOfFrom_nonneg_of_mem (xs : List Str) (x : Str) (i : Nat) (h : x ∈ xs) :
    0 ≤ indexOfFrom xs x i := by
  induction xs generalizing i with
  | nil => cases h
  | cons y ys ih =>
    by_cases hy : y = x
    · simp [indexOfFrom, hy]
    · have hys : x ∈ ys := by
        rcases List.mem_cons.mp h with e | m
        · exact absurd e.symm hy
        · exact m
      simp only [indexOfFrom, hy, if_false]
      exact ih (i + 1) hys

theorem filter_authed_eq_nil (roles memberRoles : List Str)
    (h : ∀ role ∈ memberRoles, role ∉ roles) :
    memberRoles.filter (fun role => indexOf roles role != -1) = [] := by
  rw [List.filter_eq_nil_iff]
  intro role hrole
  simp [indexOf_of_not_mem roles role (h role hrole)]

/-- A member who is not the owner, is in no list of authorised users of the
guild and holds no authorised role is refused by `elevateCommand`. -/
theorem elevateCommand_denied (bot : Bot) (message : Message) (guild : Guild)
    (hguild : message.guild = some guild)
    (howner : guild.owner ≠ message.author)
    (husers : ∀ users, bot.authorisedUsers.get guild.id = some users → message.author ∉ users)
    (hroles : ∀ roles, bot.authorisedRoles.get guild.id = some roles →
      ∀ role ∈ message.memberRoles, role ∉ roles) :
    ∃ e, elevateCommand bot message = .error e := by
  unfold elevateCommand
  simp only [hguild, howner, if_false]
  cases hu : bot.authorisedUsers.get guild.id with
  | none => exact ⟨_, rfl⟩
  | some users =>
    have h1 : indexOf users message.author = -1 :=
      indexOf_of_not_mem users message.author (husers users hu)
    cases hr : bot.authorisedRoles.get guild.id with
    | none => exact ⟨.notAuthorised, by simp [h1]⟩
    | some roles =>
      refine ⟨.notAuthorised, ?_⟩
      simp [h1, filter_authed_eq_nil roles message.memberRoles (hroles roles hr)]

/-- Attaching the built-in commands touches the registry only: a new bot has
the prefix it was given and four empty maps. -/
theorem constructor_fields (toLowerCase : Str → Str) (commandPrefix : Str) :
    (constructor toLowerCase commandPrefix).commandPrefix = commandPrefix ∧
    (constructor toLowerCase commandPrefix).commandPrefixOverrides = [] ∧
    (constructor toLowerCase commandPrefix).deleteMessageOverrides = [] ∧
    (constructor toLowerCase commandPrefix).authorisedRoles = [] ∧
    (constructor toLowerCase commandPrefix).authorisedUsers = [] := by
  simp [constructor, attachCommands, attachCommand, addCommandAliases, addCommandAlias]

/-! ## Settings round trip (C1) -/

/-- C1 (the code loses the delete-message overrides on a save and load):
after the owner switches message deletion off for guild `100`,
`getDeleteMessageForGuild` answers `false`; the snapshot of `getSettingsToSave`
holds the override under the key `deleteMessages`; `hoist` assigns that key to
the property `deleteMessages` of the new bot, whose `deleteMessageOverrides`
stays empty, so `getDeleteMessageForGuild` answers `true` after the load. -/
theorem C1_saveThenLoad_drops_deleteMessageOverrides :
    botWithDeleteOff.deleteMessageOverrides = [(js "100", false)] ∧
    getDeleteMessageForGuild botWithDeleteOff (js "100") = false ∧
    (saveThenLoad toLowerCaseAscii botWithDeleteOff).deleteMessageOverrides = [] ∧
    (saveThenLoad toLowerCaseAscii botWithDeleteOff).deleteMessages = some [(js "100", false)] ∧
    getDeleteMessageForGuild (saveThenLoad toLowerCaseAscii botWithDeleteOff) (js "100") = true :=
  ⟨rfl, rfl, rfl, rfl, rfl⟩

/-- The three maps that `hoist` assigns under their own names, and with them
`getCommandPrefixForGuild`, do survive a save and load. -/
theorem saveThenLoad_other_maps (toLowerCase : Str → Str) (bot : Bot) :
    (saveThenLoad toLowerCase bot).commandPrefixOverrides = bot.commandPrefixOverrides ∧
    (saveThenLoad toLowerCase bot).authorisedUsers = bot.authorisedUsers ∧
    (saveThenLoad toLowerCase bot).authorisedRoles = bot.authorisedRoles ∧
    ∀ guildId, getCommandPrefixForGuild (saveThenLoad toLowerCase bot) guildId =
      getCommandPrefixForGuild bot guildId := by
  simp [saveThenLoad, hoist, getSettingsToSave, getCommandPrefixForGuild,
    (constructor_fields toLowerCase bot.commandPrefix).1]

/-! ## Authorisation (C2, C3, C4) -/

/-- C2 (the code refuses a holder of an authorised role when the guild has no
entry in `authorisedUsers`): after the owner authorises the role `Mods` (id
`7`) the guild has the entry `[7]` in `authorisedRoles` and none in
`authorisedUsers`; for a message of user `2`, who holds role `7` and is not
the owner, `elevateCommand` raises a `TypeError` instead of returning. -/
theorem C2_elevateCommand_role_holder_refused :
    botWithModsAuthorised.authorisedRoles = [(js "100", [js "7"])] ∧
    botWithModsAuthorised.authorisedUsers = [] ∧
    elevateCommand botWithModsAuthorised (memberMessage [] [js "7"]) =
      .error .typeError :=
  ⟨rfl, rfl, rfl⟩

/-- C3: for every bot state and every guild message whose author is the owner
of the guild, `elevateCommand` returns without raising, whatever
`authorisedUsers` and `authorisedRoles` hold or lack for that guild. -/
theorem C3_elevateCommand_owner (bot : Bot) (message : Message) (guild : Guild)
    (hguild : message.guild = some guild) (howner : guild.owner = message.author) :
    elevateCommand bot message = .ok () := by
  unfold elevateCommand
  simp only [hguild, howner, if_true]

/-- Witness of C3: the owner of `exampleGuild` on a bot with no entries. -/
theorem C3_elevateCommand_owner_witness :
    (ownerMessage [] []).guild = some exampleGuild ∧
    exampleGuild.owner = (ownerMessage [] []).author ∧
    elevateCommand exampleBot (ownerMessage [] []) = .ok () :=
  ⟨rfl, rfl, C3_elevateCommand_owner exampleBot (ownerMessage [] []) exampleGuild rfl rfl⟩

/-- C4: for every bot state, every argument list and every guild message
whose author is not the owner of the guild, is not in the guild's
`authorisedUsers` list and holds no role of the guild's `authorisedRoles`
list, each of the six privileged handlers ends with an exception, leaves the
bot (so all four per-guild maps) exactly as it was, and saves nothing. -/
theorem C4_denied_handlers_fail_and_keep_state (toLowerCase : Str → Str) (bot : Bot)
    (message : Message) (guild : Guild) (commandParts : List Str)
    (hguild : message.guild = some guild)
    (howner : guild.owner ≠ message.author)
    (husers : ∀ users, bot.authorisedUsers.get guild.id = some users → message.author ∉ users)
    (hroles : ∀ roles, bot.authorisedRoles.get guild.id = some roles →
      ∀ role ∈ message.memberRoles, role ∉ roles) :
    ∀ handler ∈ [setCommandPrefixForGuild, setDeleteMessages toLowerCase, authoriseUser,
        authoriseRole, deauthoriseUser, deauthoriseRole],
      (handler bot commandParts message).error.isSome = true ∧
      (handler bot commandParts message).bot = bot ∧
      (handler bot commandParts message).saved = [] := by
  obtain ⟨e, he⟩ := elevateCommand_denied bot message guild hguild howner husers hroles
  intro handler hmem
  simp only [List.mem_cons, List.mem_singleton, List.not_mem_nil, or_false] at hmem
  rcases hmem with h | h | h | h | h | h <;> subst h
  · simp [setCommandPrefixForGuild, he, Outcome.raise]
  · simp [setDeleteMessages, he, Outcome.raise]
  · simp [authoriseUser, he, Outcome.raise]
  · simp [authoriseRole, he, Outcome.raise]
  · simp [deauthoriseUser, he, Outcome.raise]
  · simp [deauthoriseRole, he, Outcome.raise]

/-- Witness of C4: user `2`, without roles, on a bot where only user `3` is
authorised in `exampleGuild`, is refused by `setCommandPrefixForGuild` and by
`authoriseUser`, which leave the bot as it was. -/
theorem C4_denied_handlers_fail_and_keep_state_witness :
    exampleGuild.owner ≠ (memberMessage [] []).author ∧
    botWithUserThree.authorisedUsers.get exampleGuild.id = some [js "3"] ∧
    ((setCommandPrefixForGuild botWithUserThree [js "?"]
        (memberMessage [] [])).error.isSome = true ∧
      (setCommandPrefixForGuild botWithUserThree [js "?"] (memberMessage [] [])).bot =
        botWithUserThree ∧
      (setCommandPrefixForGuild botWithUserThree [js "?"] (memberMessage [] [])).saved =
        []) ∧
    ((authoriseUser botWithUserThree [js "?"] (memberMessage [] [])).error.isSome = true ∧
      (authoriseUser botWithUserThree [js "?"] (memberMessage [] [])).bot =
        botWithUserThree ∧
      (authoriseUser botWithUserThree [js "?"] (memberMessage [] [])).saved = []) :=
  have h := C4_denied_handlers_fail_and_keep_state toLowerCaseAscii botWithUserThree
    (memberMessage [] [])
    exampleGuild [js "?"] rfl (by decide)
    (by intro users hu; cases hu; decide)
    (by intro roles hr; cases hr)
  ⟨by decide, rfl, h setCommandPrefixForGuild (by simp), h authoriseUser (by simp)⟩

/-! ## Message parsing (C5, C6, C7) -/

/-- A string in which the separator does not occur is split into itself. -/
theorem splitFrom_eq_singleton (sep s : Str) (h : ¬ sep <:+: s) : splitFrom sep 0 s = [s] := by
  induction s with
  | nil => rfl
  | cons c cs ih =>
    have hpre : sep.isPrefixOf (c :: cs) = false := by
      cases hp : sep.isPrefixOf (c :: cs) with
      | false => rfl
      | true => exact absurd (List.isPrefixOf_iff_prefix.mp hp).isInfix h
    have hcs : ¬ sep <:+: cs := fun hi => h (hi.trans (List.infix_cons List.infix_rfl))
    simp [splitFrom, hpre, ih hcs]

/-- Nothing is dropped from a string whose first code unit fails the test. -/
theorem dropWhile_eq_self (p : CodeUnit → Bool) (s : Str)
    (h : ∀ c, s.head? = some c → p c = false) : s.dropWhile p = s := by
  cases s with
  | nil => rfl
  | cons c cs => simp [List.dropWhile, h c rfl]

/-- A string that neither starts nor ends with white space is its own trim. -/
theorem trim_eq_self (s : Str)
    (hhead : ∀ c, s.head? = some c → isWhiteSpace c = false)
    (hlast : ∀ c, s.getLast? = some c → isWhiteSpace c = false) : trim s = s := by
  unfold trim
  rw [dropWhile_eq_self isWhiteSpace s hhead,
    dropWhile_eq_self isWhiteSpace s.reverse (by simpa using hlast), List.reverse_reverse]

/-- C5 (the code dispatches a trailing empty argument): for the guild message
`!setprefix ? -- changing prefix` under the prefix `!`, `processCommand` calls
`executeCommand` with the command `setprefix`, the comment `changing prefix`
and the arguments `["?", ""]`: the text before `--` is `setprefix ? `, which
is split on single spaces without being trimmed, so the space before `--`
yields a last, empty argument. -/
theorem C5_processCommand_trailing_empty_argument :
    processCommand toLowerCaseAscii exampleBot
        (memberMessage (js "!setprefix ? -- changing prefix") []) =
      .executeCommand (js "setprefix") [js "?", []] (js "changing prefix") := by
  decide

/-- C6 as stated is false, twice over.  First: under the guild prefix `<` and
for the bot of id `42`, the message `<@42>ping` is the prefix followed by the
token `@42>ping`, free of spaces and of `--`, yet it starts with a mention of
the bot, the mention is what gets stripped, and the command dispatched is
`ping`.  Second, even for messages that are no mention: under the prefix `!`
the message made of `!`, a tab and `ping` has a token free of spaces and of
`--`, yet `trim` strips the tab and the command dispatched is `ping`. -/
theorem C6_single_token_counterexample :
    (¬ ∀ (bot : Bot) (message : Message) (guild : Guild) (p : CodeUnit) (token : Str),
        message.guild = some guild → message.channelType ≠ .dm →
        getCommandPrefixForGuild bot guild.id = [p] → message.content = p :: token →
        (32 : CodeUnit) ∉ token → ¬ (js "--") <:+: token →
        processCommand toLowerCaseAscii bot message =
          .executeCommand (toLowerCaseAscii token) [] []) ∧
    (¬ ∀ (bot : Bot) (message : Message) (guild : Guild) (p : CodeUnit) (token : Str),
        message.guild = some guild → message.channelType ≠ .dm →
        getCommandPrefixForGuild bot guild.id = [p] → message.content = p :: token →
        (32 : CodeUnit) ∉ token → ¬ (js "--") <:+: token →
        mentionMatch bot.user message.content = none →
        processCommand toLowerCaseAscii bot message =
          .executeCommand (toLowerCaseAscii token) [] []) := by
  constructor
  · intro h
    have h1 := h botWithAnglePrefix (memberMessage (js "<@42>ping") []) exampleGuild 60
      (js "@42>ping") rfl (by decide) rfl rfl (by decide) (by decide)
    have h2 : processCommand toLowerCaseAscii botWithAnglePrefix
        (memberMessage (js "<@42>ping") []) = .executeCommand (js "ping") [] [] := by decide
    rw [h2] at h1
    exact absurd h1 (by decide)
  · intro h
    have h1 := h exampleBot (memberMessage (js "!\tping") []) exampleGuild 33
      (js "\tping") rfl (by decide) rfl rfl (by decide) (by decide) rfl
    have h2 : processCommand toLowerCaseAscii exampleBot (memberMessage (js "!\tping") []) =
        .executeCommand (js "ping") [] [] := by decide
    rw [h2] at h1
    exact absurd h1 (by decide)

/-- C6, amended: for every guild message that consists of the effective
prefix, of one code unit, followed by a single token (no space, no `--`, no
white space at its start or end) and that does not start with a mention of
the bot, `processCommand` dispatches the lowercased token as the command, with
no arguments and the empty comment.  The token is lowercased by the method
`toLowerCase` of the runtime, whatever function that is. -/
theorem C6_processCommand_single_token (toLowerCase : Str → Str) (bot : Bot)
    (message : Message) (guild : Guild) (p : CodeUnit) (token : Str)
    (hguild : message.guild = some guild)
    (hchannel : message.channelType ≠ .dm)
    (hpfx : getCommandPrefixForGuild bot guild.id = [p])
    (hcontent : message.content = p :: token)
    (hspace : (32 : CodeUnit) ∉ token)
    (hdash : ¬ (js "--") <:+: token)
    (hhead : ∀ c, token.head? = some c → isWhiteSpace c = false)
    (hlast : ∀ c, token.getLast? = some c → isWhiteSpace c = false)
    (hmention : mentionMatch bot.user message.content = none) :
    processCommand toLowerCase bot message = .executeCommand (toLowerCase token) [] [] := by
  have hsp : ¬ (js " ") <:+: token := by
    intro hi
    exact hspace (hi.subset (show (32 : CodeUnit) ∈ js " " by decide))
  have h1 : split token (js "--") = [token] := splitFrom_eq_singleton _ _ hdash
  have h2 : split token (js " ") = [token] := splitFrom_eq_singleton _ _ hsp
  rw [hcontent] at hmention
  unfold processCommand
  simp only [hguild, hchannel, hpfx, hcontent, hmention, startsWith, substring]
  simp [trim_eq_self token hhead hlast, h1, h2]

/-- Witness of C6: `!ping` under the default prefix `!` yields the command
`ping`, no arguments and the empty comment. -/
theorem C6_processCommand_single_token_witness :
    getCommandPrefixForGuild exampleBot exampleGuild.id = [33] ∧
    mentionMatch exampleBot.user (memberMessage (js "!ping") []).content = none ∧
    processCommand toLowerCaseAscii exampleBot (memberMessage (js "!ping") []) =
      .executeCommand (js "ping") [] [] :=
  ⟨rfl, rfl,
    C6_processCommand_single_token toLowerCaseAscii exampleBot (memberMessage (js "!ping") [])
      exampleGuild 33 (js "ping") rfl (by decide) rfl rfl (by decide) (by decide)
      (by intro c h; cases h; decide) (by intro c h; cases h; decide) rfl⟩

/-- C7 (the code sends no notice in a direct channel): a message in a direct
channel has no guild, and `processCommand` returns at its first test,
`!message.guild`, before the test of the channel type that sends the notice.
For every bot and every such message, whatever its content, nothing is
executed and nothing is sent. -/
theorem C7_processCommand_direct_message_ignored (toLowerCase : Str → Str) (bot : Bot)
    (message : Message) :
    processCommand toLowerCase bot { message with guild := none, channelType := .dm } =
      .ignored ∧
    processCommand toLowerCase bot { message with guild := none, channelType := .dm } ≠
      .send dmNotice := by
  constructor
  · rfl
  · intro h
    cases h

/-! ## Missing entries in `authorisedUsers` (C8, C9) -/

/-- C8 (the `guildMemberRemove` listener raises for a guild without an
entry): on a bot with no entry for guild `100` in `authorisedUsers`, the
departure of user `2` from that guild ends in a `TypeError`, raised by the
read `this.authorisedUsers[member.guild.id].indexOf`. -/
theorem C8_guildMemberRemove_without_entry_raises :
    exampleBot.authorisedUsers.get (js "100") = none ∧
    (guildMemberRemove exampleBot (js "100") (js "2")).error = some .typeError :=
  ⟨rfl, rfl⟩

/-- C9 (`deauthoriseUser` raises for a guild without an entry): on a bot with
no entry for guild `100` in `authorisedUsers`, the owner, whom
`elevateCommand` lets through, runs `deauthoriseUser` mentioning user `2`; the
handler ends in a `TypeError`, raised by the read of the index before the test
`!this.authorisedUsers[message.guild.id]`. -/
theorem C9_deauthoriseUser_without_entry_raises :
    elevateCommand exampleBot
      (ownerMessage (js "!deauthuser <@2>") [⟨js "2", js "bob"⟩]) = .ok () ∧
    exampleBot.authorisedUsers.get (js "100") = none ∧
    (deauthoriseUser exampleBot [js "<@2>"]
      (ownerMessage (js "!deauthuser <@2>") [⟨js "2", js "bob"⟩])).error =
        some .typeError :=
  ⟨rfl, rfl, rfl⟩

/-! ## Persistence (C10) -/

/-- When `setCommandPrefixForGuild` changes the bot, it hands the snapshot of
the bot it leaves behind to `saveSettings`. -/
theorem setCommandPrefixForGuild_saves_on_change (bot : Bot) (commandParts : List Str)
    (message : Message)
    (h : (setCommandPrefixForGuild bot commandParts message).bot ≠ bot) :
    (setCommandPrefixForGuild bot commandParts message).saved =
      [getSettingsToSave (setCommandPrefixForGuild bot commandParts message).bot] := by
  revert h
  unfold setCommandPrefixForGuild
  cases elevateCommand bot message with
  | error e => simp [Outcome.raise]
  | ok u =>
    cases commandParts with
    | nil => simp [Outcome.done]
    | cons first rest =>
      cases hg : message.guild with
      | none => simp only [Outcome.raise, Outcome.done]; split <;> simp
      | some guild =>
        simp only [Outcome.done]
        split
        · simp
        · split <;> simp [saveSettings]

/-- The five other privileged handlers never reach `saveSettings`. -/
theorem other_handlers_never_save (toLowerCase : Str → Str) (bot : Bot)
    (commandParts : List Str) (message : Message) :
    ∀ handler ∈ [setDeleteMessages toLowerCase, authoriseUser, authoriseRole, deauthoriseUser,
        deauthoriseRole],
      (handler bot commandParts message).saved = [] := by
  intro handler hmem
  simp only [List.mem_cons, List.mem_singleton, List.not_mem_nil, or_false] at hmem
  rcases hmem with h | h | h | h | h <;> subst h
  all_goals
    first
    | unfold setDeleteMessages
    | unfold authoriseUser
    | unfold authoriseRole
    | unfold deauthoriseUser
    | unfold deauthoriseRole
  all_goals
    repeat' first
      | split
      | rfl
      | dsimp only

/-- C10 (handlers that change a map without saving): run by the owner on a
bot with empty maps, `setDeleteMessages false` changes
`deleteMessageOverrides`, `authoriseUser` with a mention of user `2` changes
`authorisedUsers` and `authoriseRole Mods` changes `authorisedRoles`; each
returns normally and none hands a snapshot to `saveSettings`. -/
theorem C10_handlers_change_maps_without_saving :
    ((setDeleteMessages toLowerCaseAscii exampleBot [js "false"] (ownerMessage [] [])).bot.deleteMessageOverrides
        ≠ exampleBot.deleteMessageOverrides ∧
      (setDeleteMessages toLowerCaseAscii exampleBot [js "false"] (ownerMessage [] [])).error = none ∧
      (setDeleteMessages toLowerCaseAscii exampleBot [js "false"] (ownerMessage [] [])).saved = []) ∧
    ((authoriseUser exampleBot [js "<@2>"]
        (ownerMessage [] [⟨js "2", js "bob"⟩])).bot.authorisedUsers
        ≠ exampleBot.authorisedUsers ∧
      (authoriseUser exampleBot [js "<@2>"]
        (ownerMessage [] [⟨js "2", js "bob"⟩])).error = none ∧
      (authoriseUser exampleBot [js "<@2>"]
        (ownerMessage [] [⟨js "2", js "bob"⟩])).saved = []) ∧
    ((authoriseRole exampleBot [js "Mods"] (ownerMessage [] [])).bot.authorisedRoles
        ≠ exampleBot.authorisedRoles ∧
      (authoriseRole exampleBot [js "Mods"] (ownerMessage [] [])).error = none ∧
      (authoriseRole exampleBot [js "Mods"] (ownerMessage [] [])).saved = []) := by
  decide

/-! ## Lemmas on objects -/

/-- Reading back the property just written. -/
theorem JsObject.get_set_self {V : Type} (o : JsObject V) (k : Str) (v : V) :
    (o.set k v).get k = some v := by
  induction o with
  | nil => simp [JsObject.set, JsObject.get]
  | cons p rest ih =>
    obtain ⟨k', v'⟩ := p
    by_cases h : k' = k
    · simp [JsObject.set, JsObject.get, h]
    · simp [JsObject.set, JsObject.get, h, ih]

/-- A write leaves the other properties as they were. -/
theorem JsObject.get_set_of_ne {V : Type} (o : JsObject V) (k k' : Str) (v : V) (h : k' ≠ k) :
    (o.set k v).get k' = o.get k' := by
  induction o with
  | nil => simp [JsObject.set, JsObject.get, Ne.symm h]
  | cons p rest ih =>
    obtain ⟨k₀, v₀⟩ := p
    by_cases h₀ : k₀ = k
    · subst h₀
      simp [JsObject.set, JsObject.get, Ne.symm h]
    · by_cases h₁ : k₀ = k'
      · subst h₁
        simp [JsObject.set, JsObject.get, h₀]
      · simp [JsObject.set, JsObject.get, h₀, h₁, ih]

/-- Removal, one property at a time. -/
theorem JsObject.delete_cons {V : Type} (k' : Str) (v' : V) (rest : JsObject V) (k : Str) :
    JsObject.delete ((k', v') :: rest) k =
      if k' = k then JsObject.delete rest k else (k', v') :: JsObject.delete rest k := by
  by_cases h : k' = k <;> simp [JsObject.delete, List.filter, h]

/-- A removed property reads as `undefined`. -/
theorem JsObject.get_delete_self {V : Type} (o : JsObject V) (k : Str) :
    (o.delete k).get k = none := by
  induction o with
  | nil => rfl
  | cons p rest ih =>
    obtain ⟨k', v'⟩ := p
    rw [JsObject.delete_cons]
    by_cases h : k' = k
    · simp [h, ih]
    · simp [h, JsObject.get, ih]

/-- A removal leaves the other properties as they were. -/
theorem JsObject.get_delete_of_ne {V : Type} (o : JsObject V) (k k' : Str) (h : k' ≠ k) :
    (o.delete k).get k' = o.get k' := by
  induction o with
  | nil => rfl
  | cons p rest ih =>
    obtain ⟨k₀, v₀⟩ := p
    rw [JsObject.delete_cons]
    by_cases h₀ : k₀ = k
    · subst h₀
      simp [JsObject.get, Ne.symm h, ih]
    · by_cases h₁ : k₀ = k'
      · subst h₁
        simp [JsObject.get, h₀]
      · simp [JsObject.get, h₀, h₁, ih]

/-- Removing a property that is not there changes nothing. -/
theorem JsObject.delete_eq_self {V : Type} (o : JsObject V) (k : Str) (h : o.get k = none) :
    o.delete k = o := by
  induction o with
  | nil => rfl
  | cons p rest ih =>
    obtain ⟨k', v'⟩ := p
    rw [JsObject.delete_cons]
    by_cases hk : k' = k
    · simp [JsObject.get, hk] at h
    · simp only [JsObject.get, hk, if_false] at h
      simp [hk, ih h]

/-! ## Command registry (C17) -/

/-- Writing a handler is an ordinary write, under any name. -/
theorem setCommand_some (commands : JsObject (Option Handler)) (name : Str)
    (callback : Handler) :
    setCommand commands name (some callback) = commands.set name (some callback) := by
  unfold setCommand
  split <;> rfl

/-- Under a name other than `__proto__` every write is an ordinary write. -/
theorem setCommand_of_ne (commands : JsObject (Option Handler)) (name : Str)
    (value : Option Handler) (h : name ≠ js "__proto__") :
    setCommand commands name value = commands.set name value := by
  unfold setCommand
  simp [h]

/-- The lookup of a name that has an own property gives its value. -/
theorem lookupCommand_of_get (bot : Bot) (command : Str) (value : Option Handler)
    (h : bot.commands.get command = some value) : lookupCommand bot command = value := by
  unfold lookupCommand
  simp [h]

/-- What the code does do for aliases: for every registry and names `c`, `a`
with different lowercased forms, the lowercased `a` not being `__proto__`,
after `addCommandAlias(c, a)` the lookup of the lowercased `a` gives what the
lookup of the lowercased `c` gave at that moment; a later
`attachCommand(c, h2)` makes the lookup of `c` give `h2` and leaves the lookup
of `a` on the old value.  The names are lowercased by the method
`toLowerCase` of the runtime, whatever function that is. -/
theorem alias_is_a_copy (toLowerCase : Str → Str) (bot : Bot) (c a : Str) (h2 : Handler)
    (hne : toLowerCase a ≠ toLowerCase c) (hproto : toLowerCase a ≠ js "__proto__") :
    lookupCommand (addCommandAlias toLowerCase bot c a) (toLowerCase a) =
      lookupCommand bot (toLowerCase c) ∧
    lookupCommand (attachCommand toLowerCase (addCommandAlias toLowerCase bot c a) c h2)
      (toLowerCase c) = some h2 ∧
    lookupCommand (attachCommand toLowerCase (addCommandAlias toLowerCase bot c a) c h2)
      (toLowerCase a) = lookupCommand bot (toLowerCase c) := by
  refine ⟨?_, ?_, ?_⟩
  · apply lookupCommand_of_get
    simp [addCommandAlias, setCommand_of_ne _ _ _ hproto, JsObject.get_set_self]
  · apply lookupCommand_of_get
    simp [attachCommand, setCommand_some, JsObject.get_set_self]
  · apply lookupCommand_of_get
    simp [attachCommand, addCommandAlias, setCommand_some, setCommand_of_ne _ _ _ hproto,
      JsObject.get_set_self, JsObject.get_set_of_ne _ _ _ _ hne]

/-- C17 (the code drops an alias named `__proto__`): the built-in registry has
no command `nosuchcommand`, and its lookup gives `undefined`; the assignment
of `addCommandAlias('nosuchcommand', '__proto__')` goes to the accessor
`__proto__`, which ignores `undefined`, and the lookup of `__proto__` gives
the object `Object.prototype` afterwards, not what was found under
`nosuchcommand`.  For the alias `pong` of `ping` the same calls do what the
claim says: the alias gives the handler `ping`, also after `ping` is
re-attached. -/
theorem C17_alias_named_proto_is_dropped :
    toLowerCaseAscii (js "__proto__") ≠ toLowerCaseAscii (js "nosuchcommand") ∧
    lookupCommand exampleBot (toLowerCaseAscii (js "nosuchcommand")) = none ∧
    lookupCommand
      (addCommandAlias toLowerCaseAscii exampleBot (js "nosuchcommand") (js "__proto__"))
      (toLowerCaseAscii (js "__proto__")) = some (.inherited (js "__proto__")) ∧
    lookupCommand (addCommandAlias toLowerCaseAscii exampleBot (js "ping") (js "pong"))
      (toLowerCaseAscii (js "pong")) = some .ping ∧
    lookupCommand
      (attachCommand toLowerCaseAscii
        (addCommandAlias toLowerCaseAscii exampleBot (js "ping") (js "pong")) (js "ping")
        (.external 0))
      (toLowerCaseAscii (js "pong")) = some .ping := by
  refine ⟨by decide, by decide, by decide, by decide, by decide⟩

/-! ## Message chunking (C20) -/

/-- The chunks closed so far, the chunk being filled and the parts still to
come make up the result of the loop, in this order. -/
theorem cleanMessageLoop_flatten (message part : List Str) (chunks : List (List Str)) (n : Nat) :
    (cleanMessageLoop message part chunks n).flatten = chunks.flatten ++ part ++ message := by
  induction message generalizing part chunks n with
  | nil => simp [cleanMessageLoop]
  | cons m rest ih =>
    unfold cleanMessageLoop
    split
    · rw [ih]; simp
    · rw [ih]; simp

/-- C20: for every list of message parts, the chunks returned by
`cleanMessage`, concatenated in order, give back exactly the input list. -/
theorem C20_cleanMessage_flatten (message : List Str) :
    (cleanMessage message).flatten = message := by
  simp [cleanMessage, cleanMessageLoop_flatten]

/-! ## Guild prefixes (C11, C12, C13, C16) -/

/-- C11 (the code stores an empty override): on a bot with the global
prefix `!` the owner sends `!setcommandprefix  ?`, with two spaces;
`processCommand` dispatches `setcommandprefix` with the arguments `["", "?"]`,
`setCommandPrefixForGuild` trims the first one to the empty string, which
passes the test `guildSpecificPrefix.length > 1` and differs from `!`, and the
guild's entry in `commandPrefixOverrides` becomes the empty string, of no
character. -/
theorem C11_empty_override_stored :
    processCommand toLowerCaseAscii exampleBot (ownerMessage (js "!setcommandprefix  ?") []) =
      .executeCommand (js "setcommandprefix") [[], js "?"] [] ∧
    lookupCommand exampleBot (js "setcommandprefix") = some .setCommandPrefixForGuild ∧
    (runMessages exampleRuntime exampleBot
      [ownerMessage (js "!setcommandprefix  ?") []]).commandPrefixOverrides =
      [(js "100", [])] := by
  refine ⟨by decide, by decide, by decide⟩

/-- What `setCommandPrefixForGuild` does keep: when every entry of
`commandPrefixOverrides` has at most one character and differs from the global
prefix, the same holds after the handler has run, whoever runs it and
whatever the arguments. -/
theorem setCommandPrefixForGuild_entries (bot : Bot) (commandParts : List Str)
    (message : Message)
    (h : ∀ guildId entry, bot.commandPrefixOverrides.get guildId = some entry →
      entry.length ≤ 1 ∧ entry ≠ bot.commandPrefix) :
    (setCommandPrefixForGuild bot commandParts message).bot.commandPrefix = bot.commandPrefix ∧
    ∀ guildId entry,
      (setCommandPrefixForGuild bot commandParts message).bot.commandPrefixOverrides.get guildId =
        some entry →
      entry.length ≤ 1 ∧ entry ≠ bot.commandPrefix := by
  unfold setCommandPrefixForGuild
  cases elevateCommand bot message with
  | error e => exact ⟨rfl, h⟩
  | ok u =>
    cases commandParts with
    | nil => exact ⟨rfl, h⟩
    | cons first rest =>
      by_cases hlen : (trim first).length > 1
      · simp only [hlen, if_true]; exact ⟨rfl, h⟩
      · simp only [hlen, if_false]
        cases hg : message.guild with
        | none => exact ⟨rfl, h⟩
        | some guild =>
          by_cases heq : trim first = bot.commandPrefix
          · simp only [heq, if_true, saveSettings]
            refine ⟨trivial, fun guildId entry he => ?_⟩
            by_cases hk : guildId = guild.id
            · subst hk
              simp [JsObject.get_delete_self] at he
            · rw [JsObject.get_delete_of_ne _ _ _ hk] at he
              exact h guildId entry he
          · simp only [heq, if_false, saveSettings]
            refine ⟨trivial, fun guildId entry he => ?_⟩
            by_cases hk : guildId = guild.id
            · subst hk
              rw [JsObject.get_set_self] at he
              cases he
              exact ⟨Nat.le_of_not_gt hlen, heq⟩
            · rw [JsObject.get_set_of_ne _ _ _ _ hk] at he
              exact h guildId entry he

/-- C13 as stated is false for the empty entry: after the owner has sent
`!setcommandprefix  ?` the guild `100` has the entry `""` in
`commandPrefixOverrides`, which is falsy, and `getCommandPrefixForGuild`
returns the global prefix `!` instead of the entry. -/
theorem C13_counterexample :
    ¬ ∀ (bot : Bot) (guildId entry : Str),
        bot.commandPrefixOverrides.get guildId = some entry →
        getCommandPrefixForGuild bot guildId = entry := by
  intro h
  exact absurd (h botWithEmptyOverride (js "100") [] (by decide)) (by decide)

/-- C13, amended: for every guild id with no entry in
`commandPrefixOverrides`, `getCommandPrefixForGuild` returns the global
prefix; for a guild with a non-empty entry it returns that entry; an entry
that is the empty string counts as no entry, and the global prefix is
returned. -/
theorem C13_getCommandPrefixForGuild (bot : Bot) (guildId : Str) :
    (bot.commandPrefixOverrides.get guildId = none →
      getCommandPrefixForGuild bot guildId = bot.commandPrefix) ∧
    (∀ entry, bot.commandPrefixOverrides.get guildId = some entry → entry ≠ [] →
      getCommandPrefixForGuild bot guildId = entry) ∧
    (bot.commandPrefixOverrides.get guildId = some [] →
      getCommandPrefixForGuild bot guildId = bot.commandPrefix) := by
  refine ⟨fun h => ?_, fun entry h hne => ?_, fun h => ?_⟩
  · simp [getCommandPrefixForGuild, h]
  · simp [getCommandPrefixForGuild, h, hne]
  · simp [getCommandPrefixForGuild, h]

/-- C16 (the code strips one code unit, whatever the prefix): on a bot
constructed with the global prefix `!!`, the guild message `!!ping` starts
with the effective prefix `!!`; `processCommand` takes
`message.content.substring(1)` and dispatches the command `!ping`, not
`ping`. -/
theorem C16_one_code_unit_stripped :
    getCommandPrefixForGuild botWithLongPrefix exampleGuild.id = (js "!!") ∧
    startsWith (js "!!ping") (js "!!") = true ∧
    processCommand toLowerCaseAscii botWithLongPrefix (memberMessage (js "!!ping") []) =
      .executeCommand (js "!ping") [] [] := by
  refine ⟨by decide, by decide, by decide⟩

/-- C12 as stated is false, twice over.  First, for a global prefix of two
code units: on a bot constructed with the prefix `!!` where the guild has the
override `?`, the owner runs `setCommandPrefixForGuild` with the first
argument `!!`; the test `guildSpecificPrefix.length > 1` makes the handler
return at once and the override `?` stays.  Second, even for a global prefix
of one code unit, when that code unit is white space: on a bot constructed
with the prefix ` `, the first argument ` ` is trimmed to the empty string,
which differs from the prefix and is stored as the guild's override. -/
theorem C12_counterexample :
    (¬ ∀ (bot : Bot) (message : Message) (guild : Guild) (first : Str) (rest : List Str),
        message.guild = some guild → elevateCommand bot message = .ok () →
        first = bot.commandPrefix →
        (setCommandPrefixForGuild bot (first :: rest) message).bot.commandPrefixOverrides.get
          guild.id = none) ∧
    (¬ ∀ (bot : Bot) (message : Message) (guild : Guild) (first : Str) (rest : List Str),
        message.guild = some guild → elevateCommand bot message = .ok () →
        first = bot.commandPrefix → bot.commandPrefix.length ≤ 1 →
        (setCommandPrefixForGuild bot (first :: rest) message).bot.commandPrefixOverrides.get
          guild.id = none) := by
  constructor
  · intro h
    have h1 := h botWithLongPrefixOverridden (ownerMessage [] []) exampleGuild (js "!!") []
      rfl rfl (by decide)
    have h2 : (setCommandPrefixForGuild botWithLongPrefixOverridden [js "!!"]
        (ownerMessage [] [])).bot.commandPrefixOverrides.get exampleGuild.id =
        some (js "?") := by decide
    rw [h2] at h1
    cases h1
  · intro h
    have h1 := h botWithBlankPrefix (ownerMessage [] []) exampleGuild (js " ") []
      rfl rfl (by decide) (by decide)
    have h2 : (setCommandPrefixForGuild botWithBlankPrefix [js " "]
        (ownerMessage [] [])).bot.commandPrefixOverrides.get exampleGuild.id =
        some [] := by decide
    rw [h2] at h1
    cases h1

/-- C12, amended: for every bot whose global prefix has at most one UTF-16
code unit and is left unchanged by `trim`, and every guild, when a permitted
user runs `setCommandPrefixForGuild` with a first argument equal to the global
prefix, the handler returns normally, the guild has no entry in
`commandPrefixOverrides` afterwards, its effective prefix is the global one,
and a second run leaves the bot as the first run left it. -/
theorem C12_setCommandPrefixForGuild_default (bot : Bot) (message : Message) (guild : Guild)
    (first : Str) (rest : List Str)
    (hguild : message.guild = some guild)
    (helevate : elevateCommand bot message = .ok ())
    (hfirst : first = bot.commandPrefix)
    (hlen : bot.commandPrefix.length ≤ 1)
    (htrim : trim bot.commandPrefix = bot.commandPrefix) :
    (setCommandPrefixForGuild bot (first :: rest) message).error = none ∧
    (setCommandPrefixForGuild bot (first :: rest) message).bot.commandPrefixOverrides.get
      guild.id = none ∧
    getCommandPrefixForGuild (setCommandPrefixForGuild bot (first :: rest) message).bot
      guild.id = bot.commandPrefix ∧
    (setCommandPrefixForGuild (setCommandPrefixForGuild bot (first :: rest) message).bot
      (first :: rest) message).bot =
      (setCommandPrefixForGuild bot (first :: rest) message).bot := by
  subst hfirst
  have hnot : ¬ (bot.commandPrefix.length > 1) := Nat.not_lt.mpr hlen
  have h1 : setCommandPrefixForGuild bot (bot.commandPrefix :: rest) message =
      saveSettings { bot with
        commandPrefixOverrides := bot.commandPrefixOverrides.delete guild.id } := by
    simp [setCommandPrefixForGuild, helevate, htrim, hnot, hguild]
  have helevate' : elevateCommand { bot with
      commandPrefixOverrides := bot.commandPrefixOverrides.delete guild.id } message = .ok () :=
    helevate
  have h2 : setCommandPrefixForGuild { bot with
        commandPrefixOverrides := bot.commandPrefixOverrides.delete guild.id }
      (bot.commandPrefix :: rest) message =
      saveSettings { bot with
        commandPrefixOverrides := bot.commandPrefixOverrides.delete guild.id } := by
    simp [setCommandPrefixForGuild, helevate', htrim, hnot, hguild,
      JsObject.delete_eq_self _ _ (JsObject.get_delete_self bot.commandPrefixOverrides guild.id)]
  rw [h1]
  refine ⟨rfl, ?_, ?_, ?_⟩
  · simp [saveSettings, JsObject.get_delete_self]
  · simp [saveSettings, getCommandPrefixForGuild, JsObject.get_delete_self]
  · simpa [saveSettings] using congrArg Outcome.bot h2

/-- Witness of C12: under the global prefix `!`, the owner resets the
override `<` of `exampleGuild` with `setCommandPrefix !`. -/
theorem C12_setCommandPrefixForGuild_default_witness :
    elevateCommand botWithAnglePrefix (ownerMessage [] []) = .ok () ∧
    botWithAnglePrefix.commandPrefixOverrides.get exampleGuild.id = some (js "<") ∧
    (setCommandPrefixForGuild botWithAnglePrefix [js "!"]
      (ownerMessage [] [])).bot.commandPrefixOverrides.get exampleGuild.id = none :=
  ⟨rfl, by decide,
    (C12_setCommandPrefixForGuild_default botWithAnglePrefix (ownerMessage [] []) exampleGuild
      (js "!") [] rfl rfl (by decide) (by decide) (by decide)).2.1⟩

/-! ## Deletion and unknown commands (C18, C19) -/

/-- `indexOf` is negative exactly for an element that is not in the array. -/
theorem indexOf_neg_iff (xs : List Str) (x : Str) : indexOf xs x < 0 ↔ x ∉ xs := by
  constructor
  · intro h hmem
    have := indexOfFrom_nonneg_of_mem xs x 0 hmem
    unfold indexOf at h
    omega
  · intro h
    rw [indexOf_of_not_mem xs x h]
    decide

/-- A property reads as `undefined` exactly when its name is not among the
keys. -/
theorem JsObject.get_eq_none_iff {V : Type} (o : JsObject V) (k : Str) :
    o.get k = none ↔ k ∉ o.keys := by
  induction o with
  | nil => exact ⟨fun _ h => (by cases h), fun _ => rfl⟩
  | cons p rest ih =>
    obtain ⟨k', v'⟩ := p
    show (if k' = k then some v' else JsObject.get rest k) = none ↔ k ∉ k' :: JsObject.keys rest
    by_cases h : k' = k
    · subst h
      simp only [if_true]
      exact ⟨fun e => (by cases e), fun e => absurd (List.mem_cons_self _ _) e⟩
    · simp only [h, if_false]
      rw [ih, List.mem_cons]
      constructor
      · intro hn hm
        rcases hm with e | m
        · exact h e.symm
        · exact hn m
      · intro hn m
        exact hn (Or.inr m)

/-- `getDeleteMessageForGuild` is `true` by default and `false` only when
the guild's override is `false`. -/
theorem getDeleteMessageForGuild_eq_false_iff (bot : Bot) (guildId : Str) :
    getDeleteMessageForGuild bot guildId = false ↔
      bot.deleteMessageOverrides.get guildId = some false := by
  unfold getDeleteMessageForGuild
  by_cases h : indexOf bot.deleteMessageOverrides.keys guildId < 0
  · have hnone := (JsObject.get_eq_none_iff _ _).mpr ((indexOf_neg_iff _ _).mp h)
    simp [h, hnone]
  · simp only [h, if_false]
    cases hg : bot.deleteMessageOverrides.get guildId with
    | none => exact absurd ((indexOf_neg_iff _ _).mpr ((JsObject.get_eq_none_iff _ _).mp hg)) h
    | some v => cases v <;> simp

/-- What `executeCommand` does after the call of a value found under the
command name, response by response. -/
theorem executeCommand_known (runtime : Runtime) (bot : Bot) (command : Str)
    (commandParts : List Str) (message : Message) (comment : Str) (guild : Guild)
    (handler : Handler)
    (hguild : message.guild = some guild)
    (hknown : lookupCommand bot command = some handler) :
    executeCommand runtime bot command commandParts message comment =
      match (runHandler runtime handler bot commandParts message comment).response with
      | .thrown e =>
        (runHandler runtime handler bot commandParts message comment).finish handler false
          (some e)
      | .rejected e =>
        (runHandler runtime handler bot commandParts message comment).finish handler false
          (some e)
      | .pending =>
        (runHandler runtime handler bot commandParts message comment).finish handler false none
      | .notThenable =>
        (runHandler runtime handler bot commandParts message comment).finish handler false
          (some .typeError)
      | .falsy | .fulfilled =>
        (runHandler runtime handler bot commandParts message comment).finish handler
          (getDeleteMessageForGuild
            (runHandler runtime handler bot commandParts message comment).bot guild.id) none := by
  unfold executeCommand
  simp only [hknown]
  cases (runHandler runtime handler bot commandParts message comment).response <;>
    simp [hguild]

/-- C18 as stated is false for a handler that completes without failure by
returning a truthy value that is no promise: on a bot with the command
`hello` attached from outside, whose handler returns `true`, and with no
override for the guild, `executeCommand` finds `response` truthy, calls
`response.then`, which is no function, and ends in a `TypeError`;
`message.delete()` is not called although `getDeleteMessageForGuild` is
`true`. -/
theorem C18_counterexample :
    ¬ ∀ (runtime : Runtime) (bot : Bot) (command : Str) (commandParts : List Str)
        (message : Message) (comment : Str) (guild : Guild) (handler : Handler),
        message.guild = some guild → lookupCommand bot command = some handler →
        (∀ e, (runHandler runtime handler bot commandParts message comment).response ≠
          .thrown e) →
        (∀ e, (runHandler runtime handler bot commandParts message comment).response ≠
          .rejected e) →
        (runHandler runtime handler bot commandParts message comment).response ≠ .pending →
        (executeCommand runtime bot command commandParts message comment).deleted =
          getDeleteMessageForGuild
            (executeCommand runtime bot command commandParts message comment).bot guild.id := by
  intro h
  have h1 := h truthyRuntime botWithGreeting (js "hello") [] (ownerMessage (js "!hello") []) []
    exampleGuild (.external 0) rfl (by decide)
    (by intro e he; have he' : Response.notThenable = Response.thrown e := he; cases he')
    (by intro e he; have he' : Response.notThenable = Response.rejected e := he; cases he')
    (by decide)
  exact absurd h1 (by decide)

/-- C18, amended: for every known command, `executeCommand` calls what it
finds under the name and leaves the bot as the call left it.  When the handler
returns a falsy value or a promise that is fulfilled, `message.delete()` is
called exactly when `getDeleteMessageForGuild` of the message's guild is
`true` in that bot, that is, unless the guild's override is `false`.  When the
handler throws or its promise is rejected, `message.delete()` is not called;
nor is it when the handler returns a truthy value without a method `then`,
which ends `executeCommand` in a `TypeError`.  This holds for the built-in
handlers and for any handler attached from outside. -/
theorem C18_executeCommand_deletion (runtime : Runtime) (bot : Bot) (command : Str)
    (commandParts : List Str) (message : Message) (comment : Str) (guild : Guild)
    (handler : Handler)
    (hguild : message.guild = some guild)
    (hknown : lookupCommand bot command = some handler) :
    (executeCommand runtime bot command commandParts message comment).invoked = some handler ∧
    (executeCommand runtime bot command commandParts message comment).bot =
      (runHandler runtime handler bot commandParts message comment).bot ∧
    ((runHandler runtime handler bot commandParts message comment).response = .falsy ∨
      (runHandler runtime handler bot commandParts message comment).response = .fulfilled →
      (executeCommand runtime bot command commandParts message comment).deleted =
        getDeleteMessageForGuild
          (executeCommand runtime bot command commandParts message comment).bot guild.id ∧
      ((executeCommand runtime bot command commandParts message comment).deleted = false ↔
        (executeCommand runtime bot command commandParts message
          comment).bot.deleteMessageOverrides.get guild.id = some false)) ∧
    (∀ e, (runHandler runtime handler bot commandParts message comment).response = .thrown e ∨
      (runHandler runtime handler bot commandParts message comment).response = .rejected e →
      (executeCommand runtime bot command commandParts message comment).deleted = false) ∧
    ((runHandler runtime handler bot commandParts message comment).response = .notThenable →
      (executeCommand runtime bot command commandParts message comment).deleted = false ∧
      (executeCommand runtime bot command commandParts message comment).error =
        some .typeError) := by
  rw [executeCommand_known runtime bot command commandParts message comment guild handler
    hguild hknown]
  cases hr : (runHandler runtime handler bot commandParts message comment).response <;>
    simp [Call.finish, getDeleteMessageForGuild_eq_false_iff]

/-- Where the lookup `this.commands[command]` is `undefined`: the object has
an own property of that name whose value is `undefined`, or it has no such
property and the name is not that of a property of `Object.prototype`. -/
theorem lookupCommand_eq_none_iff (bot : Bot) (command : Str) :
    lookupCommand bot command = none ↔
      bot.commands.get command = some none ∨
      (bot.commands.get command = none ∧ command ∉ objectPrototypeNames) := by
  unfold lookupCommand
  cases bot.commands.get command with
  | none => by_cases h : command ∈ objectPrototypeNames <;> simp [h]
  | some value => cases value <;> simp

/-- What the code does do for an unknown command: when the lookup
`this.commands[command]` is `undefined`, `executeCommand` calls nothing, sends
nothing, replies nothing, saves nothing, does not call `message.delete()`,
raises nothing and leaves the whole bot unchanged. -/
theorem executeCommand_of_lookup_none (runtime : Runtime) (bot : Bot) (command : Str)
    (commandParts : List Str) (message : Message) (comment : Str)
    (h : lookupCommand bot command = none) :
    executeCommand runtime bot command commandParts message comment = Execution.idle bot := by
  unfold executeCommand
  simp only [h]

/-- C19 (the code calls what `this.commands` inherits): the built-in registry
has no command `hasOwnProperty`, `toString` or `constructor`, yet the lookup
finds them on `Object.prototype` and `executeCommand` calls them.
`hasOwnProperty`, called with no arguments, returns `false`, so that
`maybeDeleteMessage` runs and `message.delete()` is called; `toString` returns
a string, and `executeCommand` ends in a `TypeError` at `response.then`; the
guild message `!constructor` ends in the same `TypeError`.  This holds
whatever the runtime. -/
theorem C19_inherited_names_are_called (runtime : Runtime) :
    exampleBot.commands.get (js "hasOwnProperty") = none ∧
    (executeCommand runtime exampleBot (js "hasOwnProperty") [] (ownerMessage [] [])
      []).invoked = some (.inherited (js "hasOwnProperty")) ∧
    (executeCommand runtime exampleBot (js "hasOwnProperty") [] (ownerMessage [] [])
      []).deleted = true ∧
    exampleBot.commands.get (js "toString") = none ∧
    (executeCommand runtime exampleBot (js "toString") [] (ownerMessage [] []) []).error =
      some .typeError ∧
    exampleBot.commands.get (js "constructor") = none ∧
    processCommand toLowerCaseAscii exampleBot (ownerMessage (js "!constructor") []) =
      .executeCommand (js "constructor") [] [] ∧
    (executeCommand runtime exampleBot (js "constructor") [] (ownerMessage [] []) []).error =
      some .typeError := by
  refine ⟨by decide, rfl, rfl, by decide, rfl, by decide, by decide, rfl⟩

/-! ## Authorised users and roles (C14, C15) -/

/-- An element that `indexOf` places at `-1` is not in the array. -/
theorem not_mem_of_indexOf_eq (xs : List Str) (x : Str) (h : indexOf xs x = -1) : x ∉ xs :=
  (indexOf_neg_iff xs x).mp (by rw [h]; decide)

/-- Writing a list without duplicates keeps the map free of duplicates. -/
theorem NodupEntries.set {o : JsObject (List Str)} (h : NodupEntries o) (k : Str)
    (ids : List Str) (hids : ids.Nodup) : NodupEntries (o.set k ids) := by
  intro key ids' hget
  by_cases hk : key = k
  · subst hk
    rw [JsObject.get_set_self] at hget
    cases hget
    exact hids
  · rw [JsObject.get_set_of_ne _ _ _ _ hk] at hget
    exact h key ids' hget

/-- Pushing a new id keeps a list free of duplicates. -/
theorem nodup_push (ids : List Str) (id : Str) (h : ids.Nodup) (hid : id ∉ ids) :
    (ids ++ [id]).Nodup := by
  rw [List.nodup_append]
  refine ⟨h, List.nodup_singleton id, ?_⟩
  intro x hx hx'
  rw [List.mem_singleton] at hx'
  subst hx'
  exact hid hx

/-- Splicing one element out keeps a list free of duplicates. -/
theorem nodup_splice1 (ids : List Str) (index : Int) (h : ids.Nodup) :
    (splice1 ids index).Nodup :=
  List.Nodup.eraseIdx _ h

/-- Pushing an id that the guild's list lacks keeps the lists free of
duplicates; this is the write of `authoriseUser` and `authoriseRole`. -/
theorem NodupEntries.push {o : JsObject (List Str)} (h : NodupEntries o) (k id : Str)
    (hnew : ((o.get k).isNone || decide (indexOf ((o.get k).getD []) id = -1)) = true) :
    NodupEntries (o.set k ((o.get k).getD [] ++ [id])) := by
  apply h.set
  cases hget : o.get k with
  | none => simp
  | some ids =>
    simp only [hget, Option.isNone_some, Bool.false_or, decide_eq_true_eq, Option.getD_some]
      at hnew ⊢
    exact nodup_push ids id (h k ids hget) (not_mem_of_indexOf_eq ids id hnew)

/-- One round of the `forEach` of `authoriseUser` keeps the lists free of
duplicates. -/
theorem authoriseUserStep_nodup (guildId : Str) (acc : JsObject (List Str) × List Str)
    (member : Member) (h : NodupEntries acc.1) :
    NodupEntries (authoriseUserStep guildId acc member).1 := by
  unfold authoriseUserStep
  by_cases hc : ((acc.1.get guildId).isNone ||
      decide (indexOf ((acc.1.get guildId).getD []) member.id = -1)) = true
  · simp only [hc, if_true]
    exact h.push guildId member.id hc
  · simp only [hc]
    exact h

/-- The whole `forEach` of `authoriseUser` keeps the lists free of
duplicates. -/
theorem foldl_authoriseUserStep_nodup (guildId : Str) (mentions : List Member)
    (acc : JsObject (List Str) × List Str) (h : NodupEntries acc.1) :
    NodupEntries (mentions.foldl (authoriseUserStep guildId) acc).1 := by
  induction mentions generalizing acc with
  | nil => exact h
  | cons member rest ih => exact ih _ (authoriseUserStep_nodup guildId acc member h)

/-- The `forEach` of `deauthoriseUser` keeps the lists free of duplicates,
also when it ends in an exception. -/
theorem deauthoriseUserLoop_nodup (guildId : Str) (mentions : List Member)
    (authorisedUsers : JsObject (List Str)) (notAuthedUsers : List Str)
    (h : NodupEntries authorisedUsers) :
    NodupEntries (deauthoriseUserLoop guildId authorisedUsers notAuthedUsers mentions).1 := by
  induction mentions generalizing authorisedUsers notAuthedUsers with
  | nil => exact h
  | cons member rest ih =>
    unfold deauthoriseUserLoop
    cases hget : authorisedUsers.get guildId with
    | none => exact h
    | some users =>
      simp only
      split
      · exact ih _ _ h
      · exact ih _ _ (h.set guildId _ (nodup_splice1 users _ (h guildId users hget)))

theorem authoriseUser_nodup (bot : Bot) (commandParts : List Str) (message : Message)
    (h : NoDuplicateIds bot) : NoDuplicateIds (authoriseUser bot commandParts message).bot := by
  unfold authoriseUser
  cases elevateCommand bot message with
  | error e => exact h
  | ok u =>
    cases commandParts with
    | nil => exact h
    | cons first rest =>
      cases hg : message.guild with
      | none => exact h
      | some guild => exact ⟨foldl_authoriseUserStep_nodup guild.id _ _ h.1, h.2⟩

theorem deauthoriseUser_nodup (bot : Bot) (commandParts : List Str) (message : Message)
    (h : NoDuplicateIds bot) : NoDuplicateIds (deauthoriseUser bot commandParts message).bot := by
  unfold deauthoriseUser
  cases elevateCommand bot message with
  | error e => exact h
  | ok u =>
    cases commandParts with
    | nil => exact h
    | cons first rest =>
      cases hg : message.guild with
      | none => exact h
      | some guild =>
        have hl := deauthoriseUserLoop_nodup guild.id message.mentions bot.authorisedUsers [] h.1
        simp only
        split
        · next au na e heq => rw [heq] at hl; exact ⟨hl, h.2⟩
        · next au na heq => rw [heq] at hl; exact ⟨hl, h.2⟩

theorem authoriseRole_nodup (bot : Bot) (commandParts : List Str) (message : Message)
    (h : NoDuplicateIds bot) : NoDuplicateIds (authoriseRole bot commandParts message).bot := by
  unfold authoriseRole
  cases elevateCommand bot message with
  | error e => exact h
  | ok u =>
    cases commandParts with
    | nil => exact h
    | cons first rest =>
      cases hg : message.guild with
      | none => exact h
      | some guild =>
        simp only
        split
        · split
          · next hc => exact ⟨h.1, h.2.push guild.id _ hc⟩
          · exact h
        · exact h

theorem deauthoriseRole_nodup (bot : Bot) (commandParts : List Str) (message : Message)
    (h : NoDuplicateIds bot) : NoDuplicateIds (deauthoriseRole bot commandParts message).bot := by
  unfold deauthoriseRole
  cases elevateCommand bot message with
  | error e => exact h
  | ok u =>
    cases commandParts with
    | nil => exact h
    | cons first rest =>
      cases hg : message.guild with
      | none => exact h
      | some guild =>
        simp only
        split
        · split
          · exact h
          · next roles hget =>
            split
            · exact h
            · exact ⟨h.1, h.2.set guild.id _ (nodup_splice1 roles _ (h.2 guild.id roles hget))⟩
        · exact h

theorem guildMemberRemove_nodup (bot : Bot) (guildId userId : Str)
    (h : NoDuplicateIds bot) : NoDuplicateIds (guildMemberRemove bot guildId userId).bot := by
  unfold guildMemberRemove
  cases hget : bot.authorisedUsers.get guildId with
  | none => exact h
  | some users =>
    simp only
    split
    · exact ⟨h.1.set guildId _ (nodup_splice1 users _ (h.1 guildId users hget)), h.2⟩
    · exact h

/-- A sequence of operations keeps the lists free of duplicates. -/
theorem runAuthorisationOps_nodup (ops : List AuthorisationOp) (bot : Bot)
    (h : NoDuplicateIds bot) : NoDuplicateIds (runAuthorisationOps bot ops) := by
  induction ops generalizing bot with
  | nil => exact h
  | cons op rest ih =>
    apply ih
    cases op with
    | authoriseUser commandParts message => exact authoriseUser_nodup bot commandParts message h
    | deauthoriseUser commandParts message =>
      exact deauthoriseUser_nodup bot commandParts message h
    | authoriseRole commandParts message => exact authoriseRole_nodup bot commandParts message h
    | deauthoriseRole commandParts message =>
      exact deauthoriseRole_nodup bot commandParts message h
    | guildMemberRemove guildId userId => exact guildMemberRemove_nodup bot guildId userId h

/-- C14: in every state reached from a freshly constructed bot by any
sequence of `authoriseUser`, `deauthoriseUser`, `authoriseRole`,
`deauthoriseRole` and `guildMemberRemove`, with any arguments and messages,
no guild's list in `authorisedUsers` and no guild's list in `authorisedRoles`
holds the same id twice. -/
theorem C14_no_duplicate_ids (toLowerCase : Str → Str) (commandPrefix : Str)
    (ops : List AuthorisationOp) :
    (∀ guildId ids,
      (runAuthorisationOps (constructor toLowerCase commandPrefix) ops).authorisedUsers.get
        guildId = some ids → ids.Nodup) ∧
    (∀ guildId ids,
      (runAuthorisationOps (constructor toLowerCase commandPrefix) ops).authorisedRoles.get
        guildId = some ids → ids.Nodup) := by
  have h0 : NoDuplicateIds (constructor toLowerCase commandPrefix) := by
    obtain ⟨_, _, _, hr, hu⟩ := constructor_fields toLowerCase commandPrefix
    constructor
    · intro key ids hget
      rw [hu] at hget
      cases hget
    · intro key ids hget
      rw [hr] at hget
      cases hget
  exact runAuthorisationOps_nodup ops _ h0

/-- An element that `indexOf` does not place at `-1` is in the array. -/
theorem mem_of_indexOf_ne (xs : List Str) (x : Str) (h : indexOf xs x ≠ -1) : x ∈ xs := by
  by_contra hn
  exact h (indexOf_of_not_mem xs x hn)

/-- An element of the array is not placed at `-1` by `indexOf`. -/
theorem indexOf_ne_of_mem (xs : List Str) (x : Str) (h : x ∈ xs) : indexOf xs x ≠ -1 := by
  intro e
  exact not_mem_of_indexOf_eq xs x e h

theorem EntriesGrow.refl (o : JsObject (List Str)) : EntriesGrow o o :=
  fun _ ids hget => ⟨ids, hget, fun _ h => h⟩

theorem EntriesGrow.trans {o₁ o₂ o₃ : JsObject (List Str)} (h₁ : EntriesGrow o₁ o₂)
    (h₂ : EntriesGrow o₂ o₃) : EntriesGrow o₁ o₃ := by
  intro key ids hget
  obtain ⟨ids₂, hget₂, hsub₂⟩ := h₁ key ids hget
  obtain ⟨ids₃, hget₃, hsub₃⟩ := h₂ key ids₂ hget₂
  exact ⟨ids₃, hget₃, fun id hid => hsub₃ id (hsub₂ id hid)⟩

/-- One round of the `forEach` of `authoriseUser` only adds ids. -/
theorem authoriseUserStep_grow (guildId : Str) (acc : JsObject (List Str) × List Str)
    (member : Member) : EntriesGrow acc.1 (authoriseUserStep guildId acc member).1 := by
  unfold authoriseUserStep
  simp only
  split
  · intro key ids hget
    by_cases hk : key = guildId
    · subst hk
      refine ⟨_, JsObject.get_set_self _ _ _, fun id hid => ?_⟩
      simp only [hget, Option.getD_some]
      exact List.mem_append_left _ hid
    · exact ⟨ids, by rw [JsObject.get_set_of_ne _ _ _ _ hk]; exact hget, fun _ h => h⟩
  · exact EntriesGrow.refl _

/-- After its round of the `forEach`, a mentioned member is in the guild's
list. -/
theorem authoriseUserStep_adds (guildId : Str) (acc : JsObject (List Str) × List Str)
    (member : Member) :
    ∃ ids, (authoriseUserStep guildId acc member).1.get guildId = some ids ∧
      member.id ∈ ids := by
  unfold authoriseUserStep
  simp only
  split
  · exact ⟨_, JsObject.get_set_self _ _ _, List.mem_append_right _ (List.mem_singleton_self _)⟩
  · next hc =>
    cases hget : acc.1.get guildId with
    | none => simp [hget] at hc
    | some ids =>
      simp only [hget, Option.isNone_some, Bool.false_or, decide_eq_true_eq,
        Option.getD_some] at hc
      exact ⟨ids, rfl, mem_of_indexOf_ne ids member.id hc⟩

/-- The whole `forEach` of `authoriseUser` only adds ids. -/
theorem foldl_authoriseUserStep_grow (guildId : Str) (mentions : List Member)
    (acc : JsObject (List Str) × List Str) :
    EntriesGrow acc.1 (mentions.foldl (authoriseUserStep guildId) acc).1 := by
  induction mentions generalizing acc with
  | nil => exact EntriesGrow.refl _
  | cons member rest ih =>
    exact (authoriseUserStep_grow guildId acc member).trans (ih _)

/-- After the `forEach` of `authoriseUser` every mentioned member is in the
guild's list. -/
theorem foldl_authoriseUserStep_adds (guildId : Str) (mentions : List Member)
    (acc : JsObject (List Str) × List Str) :
    ∀ member ∈ mentions, ∃ ids,
      (mentions.foldl (authoriseUserStep guildId) acc).1.get guildId = some ids ∧
      member.id ∈ ids := by
  induction mentions generalizing acc with
  | nil => intro member h; cases h
  | cons first rest ih =>
    intro member hmem
    rcases List.mem_cons.mp hmem with e | hrest
    · subst e
      obtain ⟨ids, hget, hid⟩ := authoriseUserStep_adds guildId acc member
      obtain ⟨ids', hget', hsub⟩ :=
        foldl_authoriseUserStep_grow guildId rest (authoriseUserStep guildId acc member)
          guildId ids hget
      exact ⟨ids', hget', hsub _ hid⟩
    · exact ih _ member hrest

/-- A round of the `forEach` for a member already in the guild's list
leaves `authorisedUsers` as it is. -/
theorem authoriseUserStep_present (guildId : Str) (acc : JsObject (List Str) × List Str)
    (member : Member)
    (h : ∃ ids, acc.1.get guildId = some ids ∧ member.id ∈ ids) :
    (authoriseUserStep guildId acc member).1 = acc.1 := by
  obtain ⟨ids, hget, hid⟩ := h
  unfold authoriseUserStep
  simp [hget, indexOf_ne_of_mem ids member.id hid]

/-- The `forEach` over members that are all in the guild's list already
leaves `authorisedUsers` as it is. -/
theorem foldl_authoriseUserStep_present (guildId : Str) (mentions : List Member)
    (acc : JsObject (List Str) × List Str)
    (h : ∀ member ∈ mentions, ∃ ids, acc.1.get guildId = some ids ∧ member.id ∈ ids) :
    (mentions.foldl (authoriseUserStep guildId) acc).1 = acc.1 := by
  induction mentions generalizing acc with
  | nil => rfl
  | cons first rest ih =>
    have h1 := authoriseUserStep_present guildId acc first (h first (List.mem_cons_self _ _))
    have h2 := ih (authoriseUserStep guildId acc first) (by
      intro member hmem
      rw [h1]
      exact h member (List.mem_cons_of_mem _ hmem))
    simp only [List.foldl_cons]
    rw [h2, h1]

/-- Whoever `elevateCommand` lets through is still let through after ids
have been added to `authorisedUsers`. -/
theorem elevateCommand_grow (bot : Bot) (message : Message)
    (authorisedUsers : JsObject (List Str))
    (h : elevateCommand bot message = .ok ())
    (hgrow : EntriesGrow bot.authorisedUsers authorisedUsers) :
    elevateCommand { bot with authorisedUsers := authorisedUsers } message = .ok () := by
  unfold elevateCommand at h ⊢
  cases hg : message.guild with
  | none => simp [hg] at h
  | some guild =>
    simp only [hg] at h ⊢
    by_cases ho : guild.owner = message.author
    · simp [ho]
    · simp only [ho, if_false] at h ⊢
      cases hget : bot.authorisedUsers.get guild.id with
      | none => simp [hget] at h
      | some users =>
        obtain ⟨users', hget', hsub⟩ := hgrow guild.id users hget
        simp only [hget] at h
        simp only [hget']
        split at h
        · next hc =>
          have hc' : (decide (indexOf users' message.author > -1) ||
              decide ((match bot.authorisedRoles.get guild.id with
                | some roles =>
                  List.filter (fun role => indexOf roles role != -1) message.memberRoles
                | none => []).length > 0)) = true := by
            rw [Bool.or_eq_true] at hc ⊢
            rcases hc with hu | hr
            · left
              rw [decide_eq_true_eq] at hu ⊢
              have hmem : message.author ∈ users :=
                mem_of_indexOf_ne users message.author (by omega)
              have := indexOfFrom_nonneg_of_mem users' message.author 0 (hsub _ hmem)
              unfold indexOf
              omega
            · right
              exact hr
          simp only [hc', if_true]
        · cases h

/-- A run of `authoriseUser` by a permitted user with a non-empty argument
list: the `forEach` decides `authorisedUsers`, and the run returns normally. -/
theorem authoriseUser_bot (bot : Bot) (first : Str) (rest : List Str) (message : Message)
    (guild : Guild) (hguild : message.guild = some guild)
    (helevate : elevateCommand bot message = .ok ()) :
    (authoriseUser bot (first :: rest) message).bot =
      { bot with authorisedUsers :=
          (message.mentions.foldl (authoriseUserStep guild.id) (bot.authorisedUsers, [])).1 } ∧
    (authoriseUser bot (first :: rest) message).error = none := by
  simp [authoriseUser, helevate, hguild]

/-- C15 as stated is false for an empty argument list: the owner's message
`!authuser--<@2>` mentions user `2` and is dispatched to `authoriseUser` with
no arguments; the handler returns at its test `!commandParts.length` and user
`2` is in no list afterwards. -/
theorem C15_counterexample :
    processCommand toLowerCaseAscii exampleBot
        (ownerMessage (js "!authuser--<@2>") [⟨js "2", js "bob"⟩]) =
      .executeCommand (js "authuser") [] (js "<@2>") ∧
    ¬ ∀ (bot : Bot) (message : Message) (guild : Guild) (commandParts : List Str),
        message.guild = some guild → elevateCommand bot message = .ok () →
        ∀ member ∈ message.mentions, ∃ ids,
          (authoriseUser bot commandParts message).bot.authorisedUsers.get guild.id =
            some ids ∧ member.id ∈ ids := by
  refine ⟨by decide, fun h => ?_⟩
  obtain ⟨ids, hget, _⟩ := h exampleBot
    (ownerMessage (js "!authuser--<@2>") [⟨js "2", js "bob"⟩]) exampleGuild []
    rfl rfl ⟨js "2", js "bob"⟩ (List.mem_singleton_self _)
  have hnone : (authoriseUser exampleBot []
      (ownerMessage (js "!authuser--<@2>")
        [⟨js "2", js "bob"⟩])).bot.authorisedUsers.get exampleGuild.id = none := by
    decide
  rw [hnone] at hget
  cases hget

/-- C15, amended: for every bot, guild and mentioned members, when a
permitted user runs `authoriseUser` with a non-empty argument list, the run
returns normally and every mentioned member is in the guild's
`authorisedUsers` list afterwards; a second run with the same arguments and
mentions is permitted too, returns normally and leaves `authorisedUsers`, so
that guild's list, identical to what it was after the first run. -/
theorem C15_authoriseUser_idempotent (bot : Bot) (message : Message) (guild : Guild)
    (commandParts : List Str)
    (hguild : message.guild = some guild)
    (helevate : elevateCommand bot message = .ok ())
    (hparts : commandParts ≠ []) :
    (authoriseUser bot commandParts message).error = none ∧
    (∀ member ∈ message.mentions, ∃ ids,
      (authoriseUser bot commandParts message).bot.authorisedUsers.get guild.id = some ids ∧
      member.id ∈ ids) ∧
    (authoriseUser (authoriseUser bot commandParts message).bot commandParts message).error =
      none ∧
    (authoriseUser (authoriseUser bot commandParts message).bot commandParts
      message).bot.authorisedUsers =
      (authoriseUser bot commandParts message).bot.authorisedUsers := by
  cases commandParts with
  | nil => exact absurd rfl hparts
  | cons first rest =>
    obtain ⟨hbot, herr⟩ := authoriseUser_bot bot first rest message guild hguild helevate
    have hadds := foldl_authoriseUserStep_adds guild.id message.mentions (bot.authorisedUsers, [])
    have hgrow := foldl_authoriseUserStep_grow guild.id message.mentions (bot.authorisedUsers, [])
    have helevate' := elevateCommand_grow bot message _ helevate hgrow
    obtain ⟨hbot', herr'⟩ := authoriseUser_bot _ first rest message guild hguild helevate'
    rw [hbot]
    refine ⟨herr, hadds, herr', ?_⟩
    rw [hbot']
    exact foldl_authoriseUserStep_present guild.id message.mentions _ hadds

/-- Witness of C15: the owner authorises user `2` twice; the list is `[2]`
after the first run and after the second. -/
theorem C15_authoriseUser_idempotent_witness :
    elevateCommand exampleBot (ownerMessage [] [⟨js "2", js "bob"⟩]) = .ok () ∧
    (authoriseUser exampleBot [js "<@2>"]
      (ownerMessage [] [⟨js "2", js "bob"⟩])).bot.authorisedUsers =
      [(js "100", [js "2"])] ∧
    (authoriseUser (authoriseUser exampleBot [js "<@2>"]
        (ownerMessage [] [⟨js "2", js "bob"⟩])).bot [js "<@2>"]
      (ownerMessage [] [⟨js "2", js "bob"⟩])).bot.authorisedUsers =
      (authoriseUser exampleBot [js "<@2>"]
        (ownerMessage [] [⟨js "2", js "bob"⟩])).bot.authorisedUsers :=
  ⟨rfl, by decide,
    (C15_authoriseUser_idempotent exampleBot (ownerMessage [] [⟨js "2", js "bob"⟩])
      exampleGuild [js "<@2>"] rfl rfl (by decide)).2.2.2⟩

/-! ## Witnesses (C13, C14, C18) -/

/-- Witness of C13: the override `<` is returned for `exampleGuild`, and the
global prefix when the guild has no entry. -/
theorem C13_getCommandPrefixForGuild_witness :
    botWithAnglePrefix.commandPrefixOverrides.get (js "100") = some (js "<") ∧
    getCommandPrefixForGuild botWithAnglePrefix (js "100") = (js "<") ∧
    exampleBot.commandPrefixOverrides.get (js "100") = none ∧
    getCommandPrefixForGuild exampleBot (js "100") = exampleBot.commandPrefix :=
  ⟨by decide,
    (C13_getCommandPrefixForGuild botWithAnglePrefix (js "100")).2.1 (js "<") (by decide)
      (by decide),
    by decide,
    (C13_getCommandPrefixForGuild exampleBot (js "100")).1 (by decide)⟩

/-- Witness of C14: after the owner authorises user `2` twice in a row, the
list of `exampleGuild` is `[2]`. -/
theorem C14_no_duplicate_ids_witness :
    (runAuthorisationOps (constructor toLowerCaseAscii (js "!"))
      [.authoriseUser [js "<@2>"] (ownerMessage [] [⟨js "2", js "bob"⟩]),
       .authoriseUser [js "<@2>"]
        (ownerMessage [] [⟨js "2", js "bob"⟩])]).authorisedUsers.get (js "100") =
      some [js "2"] ∧
    [js "2"].Nodup :=
  ⟨by decide,
    (C14_no_duplicate_ids toLowerCaseAscii (js "!")
      [.authoriseUser [js "<@2>"] (ownerMessage [] [⟨js "2", js "bob"⟩]),
       .authoriseUser [js "<@2>"]
        (ownerMessage [] [⟨js "2", js "bob"⟩])]).1 (js "100") [js "2"]
      (by decide)⟩

/-- Witness of C18: `ping`, whose promise is fulfilled, run by the owner
deletes the message on a bot with no override and does not when the guild's
override is `false`. -/
theorem C18_executeCommand_deletion_witness :
    lookupCommand botWithDeleteOff (js "ping") = some .ping ∧
    (runHandler exampleRuntime .ping botWithDeleteOff [] (ownerMessage (js "!ping") [])
      []).response = .fulfilled ∧
    (executeCommand exampleRuntime botWithDeleteOff (js "ping") []
      (ownerMessage (js "!ping") []) []).deleted = false ∧
    (executeCommand exampleRuntime exampleBot (js "ping") []
      (ownerMessage (js "!ping") []) []).deleted = true ∧
    ((executeCommand exampleRuntime botWithDeleteOff (js "ping") []
        (ownerMessage (js "!ping") []) []).deleted = false ↔
      (executeCommand exampleRuntime botWithDeleteOff (js "ping") []
        (ownerMessage (js "!ping") []) []).bot.deleteMessageOverrides.get
          exampleGuild.id = some false) :=
  ⟨by decide, by decide, by decide, by decide,
    ((C18_executeCommand_deletion exampleRuntime botWithDeleteOff (js "ping") []
      (ownerMessage (js "!ping") []) [] exampleGuild .ping rfl (by decide)).2.2.1
        (Or.inr (by decide))).2⟩


end DiscordBot
